import Mathlib

/-!
Shallow embedding of the multi-task progress-tracking engine
(`ProgressManager` and `ProgressTask` from `src/demo/pyside6/window.py`).

Python floats are modelled as rationals (`ℚ`), the task dictionary as an
association list in insertion order (Python dicts iterate in insertion
order), the per-task `QTimer` handle as a `Bool` recording whether a timer
object is currently held, wall-clock readings (`time.time()`) as an explicit
`now : ℚ` parameter, and the two random draws of an automatic tick as
explicit parameters.  Qt signal emissions are returned as an explicit event
list.  Toast/rendering side effects mutate no manager or task state that the
engine reads back, so they are not modelled.
-/

set_option maxHeartbeats 1000000

namespace ProgressDemo

/-- `TaskStatus` enumeration from `window.py`. -/
inductive TaskStatus where
  | created
  | running
  | paused
  | completed
  | failed
  | cancelled
  deriving DecidableEq, Repr

/-- `ProgressMode` enumeration from `window.py`. -/
inductive ProgressMode where
  | manual
  | automatic
  deriving DecidableEq, Repr

/-- The `ProgressTask` dataclass.  `timer : Bool` records whether
`task.timer` holds a `QTimer` object (`True` ↔ not `None`). -/
structure ProgressTask where
  task_id : String
  name : String
  progress : ℚ := 0
  timer : Bool := false
  status : TaskStatus := .created
  progress_mode : ProgressMode := .manual
  is_auto_running : Bool := false
  created_time : ℚ := 0
  start_time : Option ℚ := none
  completion_time : Option ℚ := none
  error_message : Option String := none
  update_count : ℕ := 0
  auto_progress_interval : ℕ := 100
  auto_progress_increment_min : ℚ := 1 / 200
  auto_progress_increment_max : ℚ := 1 / 50
  deriving DecidableEq, Repr

/-- `ProgressTask.is_completed`. -/
def ProgressTask.is_completed (t : ProgressTask) : Bool :=
  t.status = TaskStatus.completed

/-- `ProgressTask.is_running`. -/
def ProgressTask.is_running (t : ProgressTask) : Bool :=
  t.status = TaskStatus.running

/-- `ProgressTask.is_manual_mode`. -/
def ProgressTask.is_manual_mode (t : ProgressTask) : Bool :=
  t.progress_mode = ProgressMode.manual

/-- `ProgressTask.is_automatic_mode`. -/
def ProgressTask.is_automatic_mode (t : ProgressTask) : Bool :=
  t.progress_mode = ProgressMode.automatic

/-- The Qt signals of `ProgressManager`, as explicit events. -/
inductive Event where
  | taskCreated (task_id : String)
  | taskUpdated (task_id : String) (progress : ℚ)
  | taskCompleted (task_id : String)
  | taskFailed (task_id : String) (message : String)
  | taskModeChanged (task_id : String) (mode : ProgressMode)
  | allTasksCompleted
  deriving DecidableEq, Repr

/-- The task registry: `self.tasks`, a dict in insertion order. -/
abbrev TaskMap := List (String × ProgressTask)

/-- Dict lookup `self.tasks.get(task_id)` (first matching key). -/
def lookupTask : TaskMap → String → Option ProgressTask
  | [], _ => none
  | p :: rest, id => if p.1 = id then some p.2 else lookupTask rest id

/-- In-place mutation of the task object stored under a key: Python mutates
the (unique) object bound to `task_id`; on an association list this updates
the first matching entry. -/
def modifyTasks : TaskMap → String → (ProgressTask → ProgressTask) → TaskMap
  | [], _, _ => []
  | p :: rest, id, f =>
    if p.1 = id then (p.1, f p.2) :: rest else p :: modifyTasks rest id f

/-- Dict assignment `self.tasks[task_id] = task`: replace the existing
binding or append a new one. -/
def insertTasks : TaskMap → String → ProgressTask → TaskMap
  | [], id, t => [(id, t)]
  | p :: rest, id, t =>
    if p.1 = id then (id, t) :: rest else p :: insertTasks rest id t

/-- Dict deletion `del self.tasks[task_id]` (first matching key). -/
def eraseTasks : TaskMap → String → TaskMap
  | [], _ => []
  | p :: rest, id => if p.1 = id then rest else p :: eraseTasks rest id

/-- `ProgressManager` mutable state (the fields the engine reads back). -/
structure ManagerState where
  tasks : TaskMap := []
  task_counter : ℕ := 0
  deriving DecidableEq, Repr

/-- `ProgressManager.get_task`. -/
def get_task (s : ManagerState) (task_id : String) : Option ProgressTask :=
  lookupTask s.tasks task_id

/-- Helper: mutate the task object bound to `task_id`. -/
def modifyTask (s : ManagerState) (task_id : String)
    (f : ProgressTask → ProgressTask) : ManagerState :=
  { s with tasks := modifyTasks s.tasks task_id f }

/-- `ProgressManager.get_active_tasks`: all tasks with `not is_completed`. -/
def get_active_tasks (s : ManagerState) : TaskMap :=
  s.tasks.filter (fun p => ¬ p.2.is_completed)

/-- `ProgressManager.get_completed_tasks`. -/
def get_completed_tasks (s : ManagerState) : TaskMap :=
  s.tasks.filter (fun p => p.2.is_completed)

/-- `ProgressManager.get_manual_tasks`. -/
def get_manual_tasks (s : ManagerState) : TaskMap :=
  s.tasks.filter (fun p => p.2.is_manual_mode)

/-- `ProgressManager.get_automatic_tasks`. -/
def get_automatic_tasks (s : ManagerState) : TaskMap :=
  s.tasks.filter (fun p => p.2.is_automatic_mode)

/-- `ProgressManager._all_tasks_completed`: `len(get_active_tasks()) == 0`. -/
def all_tasks_completed (s : ManagerState) : Bool :=
  (get_active_tasks s).length = 0

/-- `ProgressManager.create_task`.  The fresh `uuid`-derived id and the
`time.time()` reading are explicit parameters. -/
def create_task (s : ManagerState) (name : Option String)
    (progress_mode : ProgressMode) (auto_start : Bool)
    (task_id : String) (now : ℚ) : String × ManagerState × List Event :=
  let counter := s.task_counter + 1
  let task_name :=
    match name with
    | some n => if n = "" then "Task " ++ toString counter else n
    | none => "Task " ++ toString counter
  let task : ProgressTask :=
    { task_id := task_id, name := task_name, progress_mode := progress_mode,
      created_time := now,
      status := if auto_start then .running else .created,
      start_time := if auto_start then some now else none }
  let s' : ManagerState :=
    { tasks := insertTasks s.tasks task_id task, task_counter := counter }
  (task_id, s', [Event.taskCreated task_id])

/-- The task-object mutation of `_handle_task_error` (lines 614–620): mark
failed, record the message, clear `is_auto_running`; the timer object is
stopped but not released. -/
def failApply (message : String) (t : ProgressTask) : ProgressTask :=
  { t with status := .failed, error_message := some message,
           is_auto_running := false }

/-- `ProgressManager._handle_task_error`: mark the task failed, clear
`is_auto_running`, stop (but keep) the timer, emit `taskFailed`. -/
def handle_task_error (s : ManagerState) (task_id : String)
    (message : String) : ManagerState × List Event :=
  match get_task s task_id with
  | none => (s, [])
  | some _ =>
    (modifyTask s task_id (failApply message),
     [Event.taskFailed task_id message])

/-- The task-object mutation of a first `complete_task` (lines 493–502):
set status, progress, completion stamp, clear `is_auto_running`, stop and
release the timer. -/
def completeApply (now : ℚ) (t : ProgressTask) : ProgressTask :=
  { t with status := .completed, progress := 1,
           completion_time := some now,
           is_auto_running := false, timer := false }

/-- The `TypeError` message raised by line 528 when `task.duration` is
`None` (never-started task) and is formatted with `:.2f`. -/
def completeCrashMsg : String :=
  "unsupported format string passed to NoneType.__format__"

/-- `ProgressManager.complete_task`.  After the completion mutations and
signal emissions, line 528 formats `task.duration` with `:.2f`; for a
never-started task (`start_time` is `None`) `duration` is `None`, the
format raises `TypeError`, and the `except` branch (lines 531–534) marks
the task Failed via `_handle_task_error` and makes the method return
`False`. -/
def complete_task (s : ManagerState) (task_id : String) (now : ℚ) :
    Bool × ManagerState × List Event :=
  match get_task s task_id with
  | none => (false, s, [])
  | some task =>
    if task.is_completed then (true, s, [])
    else
      let s1 := modifyTask s task_id (completeApply now)
      let evs := [Event.taskCompleted task_id] ++
        (if all_tasks_completed s1 then [Event.allTasksCompleted] else [])
      if task.start_time = none then
        let r := handle_task_error s1 task_id completeCrashMsg
        (false, r.1, evs ++ r.2)
      else
        (true, s1, evs)

/-- The task-object mutation of an accepted `update_progress` call
(lines 294–302): store the clamped value, bump `update_count`, and move a
`Created` task with positive progress to `Running`, stamping `start_time`. -/
def updApply (value now : ℚ) (t : ProgressTask) : ProgressTask :=
  let t1 := { t with progress := max 0 (min 1 value),
                     update_count := t.update_count + 1 }
  if t1.status = .created ∧ max 0 (min 1 value) > 0 then
    { t1 with status := .running, start_time := some now }
  else t1

/-- `ProgressManager.update_progress`.  `value` is the Python
`progress` argument (an arbitrary number); `animated` only affects toast
rendering and is kept for signature fidelity. -/
def update_progress (s : ManagerState) (task_id : String) (value : ℚ)
    (animated : Bool) (force : Bool) (now : ℚ) :
    Bool × ManagerState × List Event :=
  match get_task s task_id with
  | none => (false, s, [])
  | some task =>
    if ¬ force ∧ task.is_automatic_mode then (false, s, [])
    else
      let old_progress := task.progress
      let newp := max 0 (min 1 value)
      let s1 := modifyTask s task_id (updApply value now)
      let evs1 :=
        if |old_progress - newp| > 1 / 1000 then
          [Event.taskUpdated task_id newp]
        else []
      if newp ≥ 1 ∧ ¬ task.is_completed then
        let r := complete_task s1 task_id now
        (true, r.2.1, evs1 ++ r.2.2)
      else
        (true, s1, evs1)

/-- The task-object mutation of `_start_auto_progress` (lines 352–364):
hold a fresh started timer, mark auto-running, force `Running` status and
stamp `start_time` if unset. -/
def armApply (now : ℚ) (t : ProgressTask) : ProgressTask :=
  { t with timer := true, is_auto_running := true, status := .running,
           start_time := some (t.start_time.getD now) }

/-- `ProgressManager._start_auto_progress`.  Arming creates and starts a
`QTimer` (timer := true) and stamps `start_time` if unset. -/
def start_auto_progress (s : ManagerState) (task_id : String) (now : ℚ) :
    Bool × ManagerState :=
  match get_task s task_id with
  | none => (false, s)
  | some task =>
    if task.is_completed then (false, s)
    else if ¬ task.is_automatic_mode then (false, s)
    else if task.is_auto_running then (true, s)
    else (true, modifyTask s task_id (armApply now))

/-- The task-object mutation of `_stop_auto_progress` (lines 388–392):
stop and release the timer, clear `is_auto_running`. -/
def disarmApply (t : ProgressTask) : ProgressTask :=
  { t with timer := false, is_auto_running := false }

/-- `ProgressManager._stop_auto_progress`: stop and drop the timer, clear
`is_auto_running`. -/
def stop_auto_progress (s : ManagerState) (task_id : String) :
    Bool × ManagerState :=
  match get_task s task_id with
  | none => (false, s)
  | some _ => (true, modifyTask s task_id disarmApply)

/-- The mode-field assignment of `set_task_mode` (line 240). -/
def modeApply (progress_mode : ProgressMode) (t : ProgressTask) : ProgressTask :=
  { t with progress_mode := progress_mode }

/-- `ProgressManager.set_task_mode`.  The source assigns
`task.progress_mode = progress_mode` first and only then stops or starts
the automatic timer. -/
def set_task_mode (s : ManagerState) (task_id : String)
    (progress_mode : ProgressMode) (now : ℚ) :
    Bool × ManagerState × List Event :=
  match get_task s task_id with
  | none => (false, s, [])
  | some task =>
    if task.is_completed then (false, s, [])
    else
      let s1 := modifyTask s task_id (modeApply progress_mode)
      let s2 :=
        if progress_mode = .manual ∧ task.is_auto_running then
          (stop_auto_progress s1 task_id).2
        else if progress_mode = .automatic ∧ task.is_running then
          (start_auto_progress s1 task_id now).2
        else s1
      (true, s2, [Event.taskModeChanged task_id progress_mode])

/-- The intermediate states of one `set_task_mode` call, in source order:
the state on entry, the state right after `task.progress_mode = progress_mode`
(line 240), and the state after the conditional timer stop/start
(lines 242–248).  Guard-rejected calls never mutate, so their trace is the
singleton entry state. -/
def set_task_mode_trace (s : ManagerState) (task_id : String)
    (progress_mode : ProgressMode) (now : ℚ) : List ManagerState :=
  match get_task s task_id with
  | none => [s]
  | some task =>
    if task.is_completed then [s]
    else
      let s1 := modifyTask s task_id (modeApply progress_mode)
      let s2 :=
        if progress_mode = .manual ∧ task.is_auto_running then
          (stop_auto_progress s1 task_id).2
        else if progress_mode = .automatic ∧ task.is_running then
          (start_auto_progress s1 task_id now).2
        else s1
      [s, s1, s2]

/-- `ProgressManager._update_auto_progress` (one automatic tick).
`incDraw` is the `random.uniform(min_inc, max_inc)` draw and `randFactor`
the `random.random()` draw. -/
def update_auto_progress (s : ManagerState) (task_id : String)
    (incDraw randFactor now : ℚ) : ManagerState × List Event :=
  match get_task s task_id with
  | none => (s, [])
  | some task =>
    if task.is_completed ∨ ¬ task.is_auto_running then (s, [])
    else
      let increment :=
        if randFactor < 1 / 20 then 0
        else if randFactor > 19 / 20 then incDraw * 2
        else incDraw
      let newp := min 1 (task.progress + increment)
      let r := update_progress s task_id newp true true now
      (r.2.1, r.2.2)

/-- `ProgressManager.start_auto_progress_for_task`. -/
def start_auto_progress_for_task (s : ManagerState) (task_id : String)
    (now : ℚ) : Bool × ManagerState :=
  start_auto_progress s task_id now

/-- `ProgressManager.stop_auto_progress_for_task`. -/
def stop_auto_progress_for_task (s : ManagerState) (task_id : String) :
    Bool × ManagerState :=
  stop_auto_progress s task_id

/-- Loop body accumulation of `start_auto_progress_for_all`: iterate the
registry keys in order, re-reading each task from the current state (the
dict values are mutated in place during the loop). -/
def startAllAux (now : ℚ) : ManagerState → List String → ℕ × ManagerState
  | s, [] => (0, s)
  | s, id :: rest =>
    match get_task s id with
    | none => startAllAux now s rest
    | some task =>
      if task.is_automatic_mode ∧ ¬ task.is_completed ∧ ¬ task.is_auto_running then
        let r := start_auto_progress s id now
        let rec' := startAllAux now r.2 rest
        (if r.1 then rec'.1 + 1 else rec'.1, rec'.2)
      else startAllAux now s rest

/-- `ProgressManager.start_auto_progress_for_all`. -/
def start_auto_progress_for_all (s : ManagerState) (now : ℚ) :
    ℕ × ManagerState :=
  startAllAux now s (s.tasks.map Prod.fst)

/-- Loop body accumulation of `stop_auto_progress_for_all`. -/
def stopAllAux : ManagerState → List String → ℕ × ManagerState
  | s, [] => (0, s)
  | s, id :: rest =>
    match get_task s id with
    | none => stopAllAux s rest
    | some task =>
      if task.is_auto_running then
        let r := stop_auto_progress s id
        let rec' := stopAllAux r.2 rest
        (if r.1 then rec'.1 + 1 else rec'.1, rec'.2)
      else stopAllAux s rest

/-- `ProgressManager.stop_auto_progress_for_all`. -/
def stop_auto_progress_for_all (s : ManagerState) : ℕ × ManagerState :=
  stopAllAux s (s.tasks.map Prod.fst)

/-- `ProgressManager.remove_task`: stop any timer, drop the toast, delete
the registry entry. -/
def remove_task (s : ManagerState) (task_id : String) : Bool × ManagerState :=
  match get_task s task_id with
  | none => (false, s)
  | some _ => (true, { s with tasks := eraseTasks s.tasks task_id })

/-- Loop of `clear_completed` over the snapshot of completed ids. -/
def clearCompletedAux : ManagerState → List String → ℕ × ManagerState
  | s, [] => (0, s)
  | s, id :: rest =>
    let r := remove_task s id
    let rec' := clearCompletedAux r.2 rest
    (if r.1 then rec'.1 + 1 else rec'.1, rec'.2)

/-- `ProgressManager.clear_completed`. -/
def clear_completed (s : ManagerState) : ℕ × ManagerState :=
  clearCompletedAux s ((get_completed_tasks s).map Prod.fst)

/-! ### Association-list lemmas -/

theorem lookupTask_modifyTasks (l : TaskMap) (id k : String)
    (f : ProgressTask → ProgressTask) :
    lookupTask (modifyTasks l id f) k =
      if k = id then (lookupTask l id).map f else lookupTask l k := by
  induction l with
  | nil => simp [lookupTask, modifyTasks]
  | cons p rest ih =>
    by_cases hp : p.1 = id <;> by_cases hk : p.1 = k <;>
      simp_all [lookupTask, modifyTasks] <;> simp_all [eq_comm]

theorem lookupTask_insertTasks (l : TaskMap) (id k : String)
    (t : ProgressTask) :
    lookupTask (insertTasks l id t) k =
      if k = id then some t else lookupTask l k := by
  induction l with
  | nil => simp [lookupTask, insertTasks, eq_comm]
  | cons p rest ih =>
    by_cases hp : p.1 = id <;> by_cases hk : p.1 = k <;>
      simp_all [lookupTask, insertTasks] <;> simp_all [eq_comm]

theorem modifyTasks_modifyTasks (l : TaskMap) (id : String)
    (f g : ProgressTask → ProgressTask) :
    modifyTasks (modifyTasks l id f) id g =
      modifyTasks l id (fun t => g (f t)) := by
  induction l with
  | nil => simp [modifyTasks]
  | cons p rest ih =>
    by_cases hp : p.1 = id <;> simp_all [modifyTasks]

theorem keys_modifyTasks (l : TaskMap) (id : String)
    (f : ProgressTask → ProgressTask) :
    (modifyTasks l id f).map Prod.fst = l.map Prod.fst := by
  induction l with
  | nil => simp [modifyTasks]
  | cons p rest ih =>
    by_cases hp : p.1 = id <;> simp_all [modifyTasks]

theorem forall_modifyTasks {P : String × ProgressTask → Prop} {l : TaskMap}
    {id : String} {f : ProgressTask → ProgressTask}
    (hl : ∀ p ∈ l, P p)
    (hf : ∀ k t, lookupTask l id = some t → P (k, t) → P (k, f t)) :
    ∀ p ∈ modifyTasks l id f, P p := by
  induction l with
  | nil => simp [modifyTasks]
  | cons p rest ih =>
    by_cases hp : p.1 = id
    · simp only [modifyTasks, hp, if_pos]
      intro q hq
      rcases List.mem_cons.mp hq with h | h
      · subst h
        have hstep := hf p.1 p.2 (by simp [lookupTask, hp]) (hl p (List.mem_cons_self _ _))
        rwa [hp] at hstep
      · exact hl q (List.mem_cons_of_mem _ h)
    · simp only [modifyTasks, hp, if_neg, not_false_iff]
      intro q hq
      rcases List.mem_cons.mp hq with h | h
      · subst h; exact hl q (List.mem_cons_self _ _)
      · exact ih (fun r hr => hl r (List.mem_cons_of_mem _ hr))
          (fun k t ht => hf k t (by simpa [lookupTask, hp] using ht)) q h

theorem forall_insertTasks {P : String × ProgressTask → Prop} {l : TaskMap}
    {id : String} {t : ProgressTask}
    (hl : ∀ p ∈ l, P p) (ht : P (id, t)) :
    ∀ p ∈ insertTasks l id t, P p := by
  induction l with
  | nil => simpa [insertTasks]
  | cons p rest ih =>
    by_cases hp : p.1 = id
    · simp only [insertTasks, hp, if_pos]
      intro q hq
      rcases List.mem_cons.mp hq with h | h
      · subst h; exact ht
      · exact hl q (List.mem_cons_of_mem _ h)
    · simp only [insertTasks, hp, if_neg, not_false_iff]
      intro q hq
      rcases List.mem_cons.mp hq with h | h
      · subst h; exact hl q (List.mem_cons_self _ _)
      · exact ih (fun r hr => hl r (List.mem_cons_of_mem _ hr)) q h

/-- The manager operations, with every environment input (fresh ids, clock
readings, random draws) explicit. -/
inductive Op where
  | create (name : Option String) (mode : ProgressMode) (auto_start : Bool)
      (task_id : String) (now : ℚ)
  | update (task_id : String) (value : ℚ) (animated force : Bool) (now : ℚ)
  | complete (task_id : String) (now : ℚ)
  | setMode (task_id : String) (mode : ProgressMode) (now : ℚ)
  | startAuto (task_id : String) (now : ℚ)
  | stopAuto (task_id : String)
  | tick (task_id : String) (incDraw randFactor now : ℚ)
  | startAll (now : ℚ)
  | stopAll
  | removeOp (task_id : String)
  | clearCompletedOp
  | taskError (task_id : String) (message : String)

/-- State transition of one manager operation. -/
def applyOp (s : ManagerState) : Op → ManagerState
  | .create name mode auto_start id now => (create_task s name mode auto_start id now).2.1
  | .update id v a f now => (update_progress s id v a f now).2.1
  | .complete id now => (complete_task s id now).2.1
  | .setMode id m now => (set_task_mode s id m now).2.1
  | .startAuto id now => (start_auto_progress s id now).2
  | .stopAuto id => (stop_auto_progress s id).2
  | .tick id inc rf now => (update_auto_progress s id inc rf now).1
  | .startAll now => (start_auto_progress_for_all s now).2
  | .stopAll => (stop_auto_progress_for_all s).2
  | .removeOp id => (remove_task s id).2
  | .clearCompletedOp => (clear_completed s).2
  | .taskError id msg => (handle_task_error s id msg).1

/-- A sequence of manager operations from a given state. -/
def applyOps (s : ManagerState) (ops : List Op) : ManagerState :=
  ops.foldl applyOp s

/-- Spec §8 clamping invariant: every registered task has
`0.0 ≤ progress ≤ 1.0`. -/
def ProgressInRange (s : ManagerState) : Prop :=
  ∀ p ∈ s.tasks, 0 ≤ p.2.progress ∧ p.2.progress ≤ 1

/-- Spec §8 automatic-timer invariant: `is_auto_running` implies the task is
in Automatic mode and not Completed. -/
def AutoTimerInv (s : ManagerState) : Prop :=
  ∀ p ∈ s.tasks, p.2.is_auto_running = true →
    p.2.progress_mode = .automatic ∧ p.2.status ≠ .completed

theorem mem_eraseTasks {l : TaskMap} {id : String} :
    ∀ p ∈ eraseTasks l id, p ∈ l := by
  induction l with
  | nil => simp [eraseTasks]
  | cons p rest ih =>
    by_cases hp : p.1 = id
    · simp only [eraseTasks, hp, if_pos]
      intro q hq; exact List.mem_cons_of_mem _ hq
    · simp only [eraseTasks, hp, if_neg, not_false_iff]
      intro q hq
      rcases List.mem_cons.mp hq with h | h
      · subst h; exact List.mem_cons_self _ _
      · exact List.mem_cons_of_mem _ (ih q h)

/-! ### Preservation of the clamping invariant -/

theorem clamp_nonneg (v : ℚ) : 0 ≤ max 0 (min 1 v) := le_max_left _ _

theorem clamp_le_one (v : ℚ) : max 0 (min 1 v) ≤ 1 :=
  max_le (by norm_num) (min_le_left _ _)

theorem progressInRange_modifyTask {s : ManagerState} {id : String}
    {f : ProgressTask → ProgressTask} (hs : ProgressInRange s)
    (hf : ∀ t, get_task s id = some t →
      0 ≤ t.progress ∧ t.progress ≤ 1 → 0 ≤ (f t).progress ∧ (f t).progress ≤ 1) :
    ProgressInRange (modifyTask s id f) := by
  have hs' : ∀ p ∈ s.tasks, 0 ≤ p.2.progress ∧ p.2.progress ≤ 1 := hs
  intro p hp
  exact forall_modifyTasks hs' (fun k t hlk ht => hf t hlk ht) p hp

theorem progressInRange_error (s : ManagerState) (id : String)
    (msg : String) (hs : ProgressInRange s) :
    ProgressInRange (handle_task_error s id msg).1 := by
  unfold handle_task_error
  cases h : get_task s id with
  | none => exact hs
  | some task =>
    exact progressInRange_modifyTask hs (fun t _ ht => ht)

theorem progressInRange_complete (s : ManagerState) (id : String) (now : ℚ)
    (hs : ProgressInRange s) :
    ProgressInRange (complete_task s id now).2.1 := by
  unfold complete_task
  cases h : get_task s id with
  | none => exact hs
  | some task =>
    dsimp only
    have hs1 : ProgressInRange (modifyTask s id (completeApply now)) :=
      progressInRange_modifyTask hs (fun t _ _ => by simp [completeApply])
    split
    · exact hs
    · split
      · exact progressInRange_error _ id completeCrashMsg hs1
      · exact hs1

theorem progressInRange_update (s : ManagerState) (id : String) (v : ℚ)
    (a f : Bool) (now : ℚ) (hs : ProgressInRange s) :
    ProgressInRange (update_progress s id v a f now).2.1 := by
  unfold update_progress
  cases h : get_task s id with
  | none => exact hs
  | some task =>
    dsimp only
    split
    · exact hs
    · split
      · exact progressInRange_complete _ id now
          (progressInRange_modifyTask hs (fun t _ _ => by
            unfold updApply; dsimp only
            split <;> exact ⟨clamp_nonneg v, clamp_le_one v⟩))
      · exact progressInRange_modifyTask hs (fun t _ _ => by
          unfold updApply; dsimp only
          split <;> exact ⟨clamp_nonneg v, clamp_le_one v⟩)

theorem progressInRange_create (s : ManagerState) (name : Option String)
    (mode : ProgressMode) (auto_start : Bool) (id : String) (now : ℚ)
    (hs : ProgressInRange s) :
    ProgressInRange (create_task s name mode auto_start id now).2.1 := by
  have hs' : ∀ p ∈ s.tasks, 0 ≤ p.2.progress ∧ p.2.progress ≤ 1 := hs
  unfold create_task
  intro p hp
  exact forall_insertTasks hs' (by norm_num) p hp

theorem progressInRange_startAuto (s : ManagerState) (id : String) (now : ℚ)
    (hs : ProgressInRange s) :
    ProgressInRange (start_auto_progress s id now).2 := by
  unfold start_auto_progress
  cases h : get_task s id with
  | none => exact hs
  | some task =>
    dsimp only
    split
    · exact hs
    · split
      · exact hs
      · split
        · exact hs
        · exact progressInRange_modifyTask hs (fun t _ ht => ht)

theorem progressInRange_stopAuto (s : ManagerState) (id : String)
    (hs : ProgressInRange s) :
    ProgressInRange (stop_auto_progress s id).2 := by
  unfold stop_auto_progress
  cases h : get_task s id with
  | none => exact hs
  | some task =>
    exact progressInRange_modifyTask hs (fun t _ ht => ht)

theorem progressInRange_setMode (s : ManagerState) (id : String)
    (mode : ProgressMode) (now : ℚ) (hs : ProgressInRange s) :
    ProgressInRange (set_task_mode s id mode now).2.1 := by
  unfold set_task_mode
  cases h : get_task s id with
  | none => exact hs
  | some task =>
    dsimp only
    have hs1 : ProgressInRange (modifyTask s id
        (fun t => { t with progress_mode := mode })) :=
      progressInRange_modifyTask hs (fun t _ ht => ht)
    split
    · exact hs
    · split
      · exact progressInRange_stopAuto _ id hs1
      · split
        · exact progressInRange_startAuto _ id now hs1
        · exact hs1

theorem progressInRange_tick (s : ManagerState) (id : String)
    (incDraw randFactor now : ℚ) (hs : ProgressInRange s) :
    ProgressInRange (update_auto_progress s id incDraw randFactor now).1 := by
  unfold update_auto_progress
  cases h : get_task s id with
  | none => exact hs
  | some task =>
    dsimp only
    split
    · exact hs
    · exact progressInRange_update _ id _ true true now hs

theorem progressInRange_startAllAux (now : ℚ) (ids : List String) :
    ∀ s : ManagerState, ProgressInRange s →
      ProgressInRange (startAllAux now s ids).2 := by
  induction ids with
  | nil => intro s hs; exact hs
  | cons id rest ih =>
    intro s hs
    unfold startAllAux
    cases h : get_task s id with
    | none => exact ih s hs
    | some task =>
      dsimp only
      split
      · exact ih _ (progressInRange_startAuto s id now hs)
      · exact ih s hs

theorem progressInRange_startAll (s : ManagerState) (now : ℚ)
    (hs : ProgressInRange s) :
    ProgressInRange (start_auto_progress_for_all s now).2 :=
  progressInRange_startAllAux now _ s hs

theorem progressInRange_stopAllAux (ids : List String) :
    ∀ s : ManagerState, ProgressInRange s →
      ProgressInRange (stopAllAux s ids).2 := by
  induction ids with
  | nil => intro s hs; exact hs
  | cons id rest ih =>
    intro s hs
    unfold stopAllAux
    cases h : get_task s id with
    | none => exact ih s hs
    | some task =>
      dsimp only
      split
      · exact ih _ (progressInRange_stopAuto s id hs)
      · exact ih s hs

theorem progressInRange_stopAll (s : ManagerState)
    (hs : ProgressInRange s) :
    ProgressInRange (stop_auto_progress_for_all s).2 :=
  progressInRange_stopAllAux _ s hs

theorem progressInRange_remove (s : ManagerState) (id : String)
    (hs : ProgressInRange s) :
    ProgressInRange (remove_task s id).2 := by
  unfold remove_task
  cases h : get_task s id with
  | none => exact hs
  | some task =>
    intro p hp
    exact hs p (mem_eraseTasks p hp)

theorem progressInRange_clearAux (ids : List String) :
    ∀ s : ManagerState, ProgressInRange s →
      ProgressInRange (clearCompletedAux s ids).2 := by
  induction ids with
  | nil => intro s hs; exact hs
  | cons id rest ih =>
    intro s hs
    exact ih _ (progressInRange_remove s id hs)

theorem progressInRange_clear (s : ManagerState) (hs : ProgressInRange s) :
    ProgressInRange (clear_completed s).2 :=
  progressInRange_clearAux _ s hs

/-! ### Small helper lemmas about task flags and lookups -/

@[simp] theorem is_completed_iff (t : ProgressTask) :
    t.is_completed = true ↔ t.status = .completed := by
  simp [ProgressTask.is_completed]

@[simp] theorem is_completed_false_iff (t : ProgressTask) :
    t.is_completed = false ↔ t.status ≠ .completed := by
  simp [ProgressTask.is_completed]

@[simp] theorem is_running_iff (t : ProgressTask) :
    t.is_running = true ↔ t.status = .running := by
  simp [ProgressTask.is_running]

@[simp] theorem is_automatic_iff (t : ProgressTask) :
    t.is_automatic_mode = true ↔ t.progress_mode = .automatic := by
  simp [ProgressTask.is_automatic_mode]

@[simp] theorem is_automatic_false_iff (t : ProgressTask) :
    t.is_automatic_mode = false ↔ t.progress_mode = .manual := by
  cases h : t.progress_mode <;> simp [ProgressTask.is_automatic_mode, h]

@[simp] theorem is_manual_iff (t : ProgressTask) :
    t.is_manual_mode = true ↔ t.progress_mode = .manual := by
  simp [ProgressTask.is_manual_mode]

theorem mem_of_lookupTask {l : TaskMap} {id : String} {t : ProgressTask}
    (h : lookupTask l id = some t) : (id, t) ∈ l := by
  induction l with
  | nil => simp [lookupTask] at h
  | cons p rest ih =>
    by_cases hp : p.1 = id
    · simp only [lookupTask, hp, if_pos, Option.some.injEq] at h
      subst h
      rw [← hp, Prod.mk.eta]
      exact List.mem_cons_self _ _
    · simp only [lookupTask, hp, if_neg, not_false_iff] at h
      exact List.mem_cons_of_mem _ (ih h)

/-! ### Preservation of the automatic-timer invariant -/

theorem get_task_modifyTask (s : ManagerState) (id k : String)
    (f : ProgressTask → ProgressTask) :
    get_task (modifyTask s id f) k =
      if k = id then (get_task s id).map f else get_task s k :=
  lookupTask_modifyTasks s.tasks id k f

theorem modifyTask_modifyTask (s : ManagerState) (id : String)
    (f g : ProgressTask → ProgressTask) :
    modifyTask (modifyTask s id f) id g =
      modifyTask s id (fun t => g (f t)) := by
  unfold modifyTask
  simp [modifyTasks_modifyTasks]

/-- Shorthand for the per-task automatic-timer property. -/
def AutoOk (t : ProgressTask) : Prop :=
  t.is_auto_running = true →
    t.progress_mode = .automatic ∧ t.status ≠ .completed

theorem autoInv_modifyTask {s : ManagerState} {id : String}
    {f : ProgressTask → ProgressTask} (hs : AutoTimerInv s)
    (hf : ∀ t, get_task s id = some t → AutoOk t → AutoOk (f t)) :
    AutoTimerInv (modifyTask s id f) := by
  have hs' : ∀ p ∈ s.tasks, AutoOk p.2 := hs
  intro p hp
  exact forall_modifyTasks hs' (fun k t hlk ht => hf t hlk ht) p hp

theorem autoInv_create (s : ManagerState) (name : Option String)
    (mode : ProgressMode) (auto_start : Bool) (id : String) (now : ℚ)
    (hs : AutoTimerInv s) :
    AutoTimerInv (create_task s name mode auto_start id now).2.1 := by
  have hs' : ∀ p ∈ s.tasks, AutoOk p.2 := hs
  unfold create_task
  intro p hp
  exact forall_insertTasks hs' (by intro hrun; simp at hrun) p hp

theorem autoInv_error (s : ManagerState) (id : String) (msg : String)
    (hs : AutoTimerInv s) :
    AutoTimerInv (handle_task_error s id msg).1 := by
  unfold handle_task_error
  cases h : get_task s id with
  | none => exact hs
  | some task =>
    exact autoInv_modifyTask hs (fun t _ _ hrun => by
      simp [failApply] at hrun)

theorem autoInv_complete (s : ManagerState) (id : String) (now : ℚ)
    (hs : AutoTimerInv s) :
    AutoTimerInv (complete_task s id now).2.1 := by
  unfold complete_task
  cases h : get_task s id with
  | none => exact hs
  | some task =>
    dsimp only
    have hs1 : AutoTimerInv (modifyTask s id (completeApply now)) :=
      autoInv_modifyTask hs (fun t _ _ hrun => by
        simp [completeApply] at hrun)
    split
    · exact hs
    · split
      · exact autoInv_error _ id completeCrashMsg hs1
      · exact hs1

theorem autoInv_update (s : ManagerState) (id : String) (v : ℚ)
    (a f : Bool) (now : ℚ) (hs : AutoTimerInv s) :
    AutoTimerInv (update_progress s id v a f now).2.1 := by
  unfold update_progress
  cases h : get_task s id with
  | none => exact hs
  | some task =>
    dsimp only
    have hs1 : AutoTimerInv (modifyTask s id (updApply v now)) := by
      refine autoInv_modifyTask hs (fun t _ ht => ?_)
      intro hrun
      unfold updApply at hrun ⊢
      dsimp only at hrun ⊢
      split at hrun <;> rename_i hcond <;> simp only at hrun ⊢
      · simp only [if_pos hcond]
        exact ⟨(ht hrun).1, by simp⟩
      · simp only [if_neg hcond]
        exact ht hrun
    split
    · exact hs
    · split
      · exact autoInv_complete _ id now hs1
      · exact hs1

theorem autoInv_startAuto (s : ManagerState) (id : String) (now : ℚ)
    (hs : AutoTimerInv s) :
    AutoTimerInv (start_auto_progress s id now).2 := by
  unfold start_auto_progress
  cases h : get_task s id with
  | none => exact hs
  | some task =>
    dsimp only
    split
    · exact hs
    · split
      · exact hs
      · split
        · exact hs
        · rename_i hnc hauto _
          refine autoInv_modifyTask hs (fun t hlk ht => ?_)
          intro _
          have ht2 : t = task := by
            rw [h] at hlk; exact (Option.some_inj.mp hlk).symm
          subst ht2
          refine ⟨?_, by simp [armApply]⟩
          simpa [armApply, ProgressTask.is_automatic_mode] using hauto

theorem autoInv_stopAuto (s : ManagerState) (id : String)
    (hs : AutoTimerInv s) :
    AutoTimerInv (stop_auto_progress s id).2 := by
  unfold stop_auto_progress
  cases h : get_task s id with
  | none => exact hs
  | some task =>
    exact autoInv_modifyTask hs (fun t _ _ hrun => by
      simp [disarmApply] at hrun)

theorem autoInv_setMode (s : ManagerState) (id : String)
    (mode : ProgressMode) (now : ℚ) (hs : AutoTimerInv s) :
    AutoTimerInv (set_task_mode s id mode now).2.1 := by
  unfold set_task_mode
  cases h : get_task s id with
  | none => exact hs
  | some task =>
    dsimp only
    split
    · exact hs
    · rename_i hnc
      split
      · -- switching to Manual while the timer is armed: the stop call
        -- clears `is_auto_running` on the composite state
        rename_i hman
        unfold stop_auto_progress
        rw [get_task_modifyTask]
        simp only [if_pos rfl, h, Option.map_some]
        rw [modifyTask_modifyTask]
        exact autoInv_modifyTask hs (fun t _ _ hrun => by
          simp [disarmApply] at hrun)
      · split
        · -- switching to Automatic while running: arming preserves the
          -- invariant; the intermediate state already has mode Automatic
          rename_i hnman hautorun
          have hs1 : AutoTimerInv (modifyTask s id (modeApply mode)) := by
            refine autoInv_modifyTask hs (fun t hlk ht => ?_)
            intro hrun
            unfold modeApply at hrun ⊢
            dsimp only at hrun ⊢
            exact ⟨by simp [hautorun.1], (ht hrun).2⟩
          exact autoInv_startAuto _ id now hs1
        · -- no timer action: if the new mode is Manual the task was not
          -- auto-running; if Automatic the invariant is direct
          rename_i hnstop hnstart
          refine autoInv_modifyTask hs (fun t hlk ht => ?_)
          intro hrun
          unfold modeApply at hrun ⊢
          have ht2 : t = task := by
            rw [h] at hlk; exact (Option.some_inj.mp hlk).symm
          subst ht2
          cases mode with
          | automatic =>
            refine ⟨rfl, (ht hrun).2⟩
          | manual =>
            exfalso
            exact hnstop ⟨rfl, hrun⟩

theorem autoInv_tick (s : ManagerState) (id : String)
    (incDraw randFactor now : ℚ) (hs : AutoTimerInv s) :
    AutoTimerInv (update_auto_progress s id incDraw randFactor now).1 := by
  unfold update_auto_progress
  cases h : get_task s id with
  | none => exact hs
  | some task =>
    dsimp only
    split
    · exact hs
    · exact autoInv_update _ id _ true true now hs

theorem autoInv_startAllAux (now : ℚ) (ids : List String) :
    ∀ s : ManagerState, AutoTimerInv s →
      AutoTimerInv (startAllAux now s ids).2 := by
  induction ids with
  | nil => intro s hs; exact hs
  | cons id rest ih =>
    intro s hs
    unfold startAllAux
    cases h : get_task s id with
    | none => exact ih s hs
    | some task =>
      dsimp only
      split
      · exact ih _ (autoInv_startAuto s id now hs)
      · exact ih s hs

theorem autoInv_stopAllAux (ids : List String) :
    ∀ s : ManagerState, AutoTimerInv s →
      AutoTimerInv (stopAllAux s ids).2 := by
  induction ids with
  | nil => intro s hs; exact hs
  | cons id rest ih =>
    intro s hs
    unfold stopAllAux
    cases h : get_task s id with
    | none => exact ih s hs
    | some task =>
      dsimp only
      split
      · exact ih _ (autoInv_stopAuto s id hs)
      · exact ih s hs

theorem autoInv_remove (s : ManagerState) (id : String)
    (hs : AutoTimerInv s) :
    AutoTimerInv (remove_task s id).2 := by
  unfold remove_task
  cases h : get_task s id with
  | none => exact hs
  | some task =>
    intro p hp
    exact hs p (mem_eraseTasks p hp)

theorem autoInv_clearAux (ids : List String) :
    ∀ s : ManagerState, AutoTimerInv s →
      AutoTimerInv (clearCompletedAux s ids).2 := by
  induction ids with
  | nil => intro s hs; exact hs
  | cons id rest ih =>
    intro s hs
    exact ih _ (autoInv_remove s id hs)

/-- The automatic-timer invariant is preserved by every manager operation. -/
theorem autoInv_applyOp (s : ManagerState) (op : Op)
    (hs : AutoTimerInv s) : AutoTimerInv (applyOp s op) := by
  cases op with
  | create name mode auto_start id now => exact autoInv_create s name mode auto_start id now hs
  | update id v a f now => exact autoInv_update s id v a f now hs
  | complete id now => exact autoInv_complete s id now hs
  | setMode id m now => exact autoInv_setMode s id m now hs
  | startAuto id now => exact autoInv_startAuto s id now hs
  | stopAuto id => exact autoInv_stopAuto s id hs
  | tick id inc rf now => exact autoInv_tick s id inc rf now hs
  | startAll now => exact autoInv_startAllAux now _ s hs
  | stopAll => exact autoInv_stopAllAux _ s hs
  | removeOp id => exact autoInv_remove s id hs
  | clearCompletedOp => exact autoInv_clearAux _ s hs
  | taskError id msg => exact autoInv_error s id msg hs

/-- The clamping invariant is preserved by every single manager operation. -/
theorem progressInRange_applyOp (s : ManagerState) (op : Op)
    (hs : ProgressInRange s) : ProgressInRange (applyOp s op) := by
  cases op with
  | create name mode auto_start id now => exact progressInRange_create s name mode auto_start id now hs
  | update id v a f now => exact progressInRange_update s id v a f now hs
  | complete id now => exact progressInRange_complete s id now hs
  | setMode id m now => exact progressInRange_setMode s id m now hs
  | startAuto id now => exact progressInRange_startAuto s id now hs
  | stopAuto id => exact progressInRange_stopAuto s id hs
  | tick id inc rf now => exact progressInRange_tick s id inc rf now hs
  | startAll now => exact progressInRange_startAll s now hs
  | stopAll => exact progressInRange_stopAll s hs
  | removeOp id => exact progressInRange_remove s id hs
  | clearCompletedOp => exact progressInRange_clear s hs
  | taskError id msg => exact progressInRange_error s id msg hs

/-! ### Characterisations of single calls -/

theorem updApply_progress (v now : ℚ) (t : ProgressTask) :
    (updApply v now t).progress = max 0 (min 1 v) := by
  unfold updApply; dsimp only; split <;> rfl

theorem updApply_update_count (v now : ℚ) (t : ProgressTask) :
    (updApply v now t).update_count = t.update_count + 1 := by
  unfold updApply; dsimp only; split <;> rfl

theorem updApply_status_ne_created (v now : ℚ) (t : ProgressTask)
    (h : t.status ≠ .created) : (updApply v now t).status = t.status := by
  unfold updApply; dsimp only
  split
  · rename_i hc; exact absurd hc.1 h
  · rfl

theorem updApply_mode (v now : ℚ) (t : ProgressTask) :
    (updApply v now t).progress_mode = t.progress_mode := by
  unfold updApply; dsimp only; split <;> rfl

theorem update_progress_not_found (s : ManagerState) (id : String) (v : ℚ)
    (a f : Bool) (now : ℚ) (h : get_task s id = none) :
    update_progress s id v a f now = (false, s, []) := by
  unfold update_progress
  rw [h]

theorem update_progress_rejected (s : ManagerState) (id : String) (v : ℚ)
    (a : Bool) (now : ℚ) (task : ProgressTask)
    (h : get_task s id = some task)
    (hmode : task.progress_mode = .automatic) :
    update_progress s id v a false now = (false, s, []) := by
  unfold update_progress
  rw [h]
  simp [ProgressTask.is_automatic_mode, hmode]

theorem complete_task_already (s : ManagerState) (id : String) (now : ℚ)
    (task : ProgressTask) (h : get_task s id = some task)
    (hc : task.status = .completed) :
    complete_task s id now = (true, s, []) := by
  unfold complete_task
  rw [h]
  simp [hc]

theorem handle_task_error_found (s : ManagerState) (id : String)
    (msg : String) (task : ProgressTask) (h : get_task s id = some task) :
    handle_task_error s id msg =
      (modifyTask s id (failApply msg), [Event.taskFailed id msg]) := by
  unfold handle_task_error
  rw [h]

theorem mem_handle_task_error_events (s : ManagerState) (id : String)
    (msg : String) (e : Event) (he : e ∈ (handle_task_error s id msg).2) :
    e = Event.taskFailed id msg := by
  unfold handle_task_error at he
  cases h : get_task s id with
  | none => rw [h] at he; simp at he
  | some task =>
    rw [h] at he
    simpa using he

theorem complete_task_first (s : ManagerState) (id : String) (now : ℚ)
    (task : ProgressTask) (h : get_task s id = some task)
    (hnc : task.status ≠ .completed) (hst : task.start_time ≠ none) :
    complete_task s id now =
      (true, modifyTask s id (completeApply now),
       Event.taskCompleted id ::
         (if all_tasks_completed (modifyTask s id (completeApply now)) then
            [Event.allTasksCompleted] else [])) := by
  unfold complete_task
  rw [h]
  simp [hnc, hst]

theorem complete_task_crash (s : ManagerState) (id : String) (now : ℚ)
    (task : ProgressTask) (h : get_task s id = some task)
    (hnc : task.status ≠ .completed) (hst : task.start_time = none) :
    complete_task s id now =
      (false,
       (handle_task_error (modifyTask s id (completeApply now)) id
         completeCrashMsg).1,
       (Event.taskCompleted id ::
         (if all_tasks_completed (modifyTask s id (completeApply now)) then
            [Event.allTasksCompleted] else [])) ++
       (handle_task_error (modifyTask s id (completeApply now)) id
         completeCrashMsg).2) := by
  unfold complete_task
  rw [h]
  simp [hnc, hst]

theorem update_progress_accept_guard (f : Bool) (task : ProgressTask)
    (hacc : f = true ∨ task.progress_mode = .manual) :
    ¬ (¬ f = true ∧ task.is_automatic_mode = true) := by
  rcases hacc with h1 | h1 <;> simp [h1, ProgressTask.is_automatic_mode]

theorem update_progress_accepted_plain (s : ManagerState) (id : String)
    (v : ℚ) (a f : Bool) (now : ℚ) (task : ProgressTask)
    (h : get_task s id = some task)
    (hacc : f = true ∨ task.progress_mode = .manual)
    (hnd : ¬ ((1:ℚ) ≤ max 0 (min 1 v) ∧ task.status ≠ .completed)) :
    update_progress s id v a f now =
      (true, modifyTask s id (updApply v now),
       if |task.progress - max 0 (min 1 v)| > 1 / 1000 then
         [Event.taskUpdated id (max 0 (min 1 v))] else []) := by
  unfold update_progress
  rw [h]
  dsimp only
  rw [if_neg (update_progress_accept_guard f task hacc)]
  rw [if_neg (by simpa [ge_iff_le] using hnd)]

theorem update_progress_accepted_done (s : ManagerState) (id : String)
    (v : ℚ) (a f : Bool) (now : ℚ) (task : ProgressTask)
    (h : get_task s id = some task)
    (hacc : f = true ∨ task.progress_mode = .manual)
    (hd : (1:ℚ) ≤ max 0 (min 1 v)) (hnc : task.status ≠ .completed) :
    update_progress s id v a f now =
      (true, (complete_task (modifyTask s id (updApply v now)) id now).2.1,
       (if |task.progress - max 0 (min 1 v)| > 1 / 1000 then
          [Event.taskUpdated id (max 0 (min 1 v))] else []) ++
       (complete_task (modifyTask s id (updApply v now)) id now).2.2) := by
  unfold update_progress
  rw [h]
  dsimp only
  rw [if_neg (update_progress_accept_guard f task hacc)]
  rw [if_pos (by simpa [ge_iff_le] using And.intro hd hnc)]

theorem updApply_status_ne_completed (v now : ℚ) (t : ProgressTask)
    (h : t.status ≠ .completed) : (updApply v now t).status ≠ .completed := by
  unfold updApply; dsimp only
  split
  · simp
  · exact h

theorem updApply_status_completed_iff (v now : ℚ) (t : ProgressTask) :
    (updApply v now t).status = .completed ↔ t.status = .completed := by
  unfold updApply; dsimp only
  split
  · rename_i hc
    simp [hc.1]
  · exact Iff.rfl

theorem updApply_auto (v now : ℚ) (t : ProgressTask) :
    (updApply v now t).is_auto_running = t.is_auto_running := by
  unfold updApply; dsimp only; split <;> rfl

/-- The net result of an accepted `update_progress` call on the target
task: returns `True`, stores exactly the clamped value, bumps
`update_count` by one, and keeps an already-Completed task Completed
(both are true even when the completion chain takes the source's
logging-crash path, which touches neither `progress` nor
`update_count`). -/
theorem update_progress_final_task (s : ManagerState) (id : String) (v : ℚ)
    (a f : Bool) (now : ℚ) (task : ProgressTask)
    (h : get_task s id = some task)
    (hacc : f = true ∨ task.progress_mode = .manual) :
    (update_progress s id v a f now).1 = true ∧
    ∃ t', get_task (update_progress s id v a f now).2.1 id = some t' ∧
      t'.progress = max 0 (min 1 v) ∧
      t'.update_count = task.update_count + 1 ∧
      (task.status = .completed → t'.status = .completed) := by
  have hs1 : get_task (modifyTask s id (updApply v now)) id =
      some (updApply v now task) := by
    rw [get_task_modifyTask]; simp [h]
  by_cases hdone : (1:ℚ) ≤ max 0 (min 1 v) ∧ task.status ≠ .completed
  · rw [update_progress_accepted_done s id v a f now task h hacc hdone.1 hdone.2]
    have hone : max 0 (min 1 v) = 1 := le_antisymm (clamp_le_one v) hdone.1
    have hs2 : get_task (modifyTask (modifyTask s id (updApply v now)) id
        (completeApply now)) id =
        some (completeApply now (updApply v now task)) := by
      rw [get_task_modifyTask]; simp [hs1]
    by_cases hst : (updApply v now task).start_time = none
    · rw [complete_task_crash _ id now (updApply v now task) hs1
        (updApply_status_ne_completed v now task hdone.2) hst]
      rw [handle_task_error_found _ id completeCrashMsg
        (completeApply now (updApply v now task)) hs2]
      refine ⟨rfl,
        failApply completeCrashMsg (completeApply now (updApply v now task)),
        ?_, ?_, ?_, fun hc => absurd hc hdone.2⟩
      · dsimp only
        rw [get_task_modifyTask]
        simp [hs2]
      · simp [failApply, completeApply, hone]
      · simp [failApply, completeApply, updApply_update_count]
    · rw [complete_task_first _ id now (updApply v now task) hs1
        (updApply_status_ne_completed v now task hdone.2) hst]
      refine ⟨rfl, completeApply now (updApply v now task), ?_, ?_, ?_,
        fun hc => absurd hc hdone.2⟩
      · dsimp only
        rw [get_task_modifyTask]
        simp [hs1]
      · simp [completeApply, hone]
      · simp [completeApply, updApply_update_count]
  · rw [update_progress_accepted_plain s id v a f now task h hacc hdone]
    refine ⟨rfl, updApply v now task, hs1, updApply_progress v now task,
      updApply_update_count v now task, ?_⟩
    intro hc
    exact (updApply_status_completed_iff v now task).mpr hc

/-- `set_task_mode` to Manual on a non-completed task: the mode field is
assigned first; the timer is then disarmed only if the task was
auto-running. -/
theorem set_task_mode_manual_eq (s : ManagerState) (id : String) (now : ℚ)
    (task : ProgressTask) (h : get_task s id = some task)
    (hnc : task.status ≠ .completed) :
    set_task_mode s id .manual now =
      (true,
       if task.is_auto_running = true then
         modifyTask s id (fun t => disarmApply (modeApply .manual t))
       else modifyTask s id (modeApply .manual),
       [Event.taskModeChanged id .manual]) := by
  unfold set_task_mode
  rw [h]
  dsimp only
  rw [if_neg (by simpa using hnc)]
  by_cases hrun : task.is_auto_running = true
  · rw [if_pos ⟨rfl, hrun⟩]
    unfold stop_auto_progress
    rw [get_task_modifyTask]
    simp only [if_pos rfl, h, Option.map_some]
    rw [modifyTask_modifyTask]
    simp [hrun]
  · rw [if_neg (fun hcon => hrun hcon.2)]
    rw [if_neg (by simp)]
    simp [hrun]

theorem mem_complete_task_events (s : ManagerState) (id : String) (now : ℚ)
    (e : Event) (he : e ∈ (complete_task s id now).2.2) :
    e = Event.taskCompleted id ∨ e = Event.allTasksCompleted ∨
      e = Event.taskFailed id completeCrashMsg := by
  unfold complete_task at he
  cases h : get_task s id with
  | none => rw [h] at he; simp at he
  | some task =>
    rw [h] at he
    dsimp only at he
    split at he
    · simp at he
    · split at he
      · rcases List.mem_append.mp he with h1 | h1
        · rcases List.mem_append.mp h1 with h2 | h2
          · exact Or.inl (by simpa using h2)
          · split at h2 <;> simp at h2
            exact Or.inr (Or.inl h2)
        · exact Or.inr (Or.inr (mem_handle_task_error_events _ _ _ _ h1))
      · rcases List.mem_append.mp he with h1 | h1
        · exact Or.inl (by simpa using h1)
        · split at h1 <;> simp at h1
          exact Or.inr (Or.inl h1)

/-! ### Initial state and multi-step preservation -/

/-- The registry as set up by `ProgressManager.__init__`: empty. -/
def initialState : ManagerState := { tasks := [], task_counter := 0 }

theorem progressInRange_initial : ProgressInRange initialState := by
  intro p hp
  simp [initialState] at hp

theorem autoInv_initial : AutoTimerInv initialState := by
  intro p hp
  simp [initialState] at hp

theorem progressInRange_applyOps (ops : List Op) :
    ∀ s : ManagerState, ProgressInRange s →
      ProgressInRange (applyOps s ops) := by
  induction ops with
  | nil => intro s hs; exact hs
  | cons op rest ih =>
    intro s hs
    exact ih _ (progressInRange_applyOp s op hs)

theorem autoInv_applyOps (ops : List Op) :
    ∀ s : ManagerState, AutoTimerInv s → AutoTimerInv (applyOps s ops) := by
  induction ops with
  | nil => intro s hs; exact hs
  | cons op rest ih =>
    intro s hs
    exact ih _ (autoInv_applyOp s op hs)

/-! ### Witness fixtures -/

/-- Fixture: a freshly created Automatic-mode task registered as "x". -/
def autoTask : ProgressTask :=
  { task_id := "x", name := "X", progress_mode := .automatic }

def autoFix : ManagerState := { tasks := [("x", autoTask)], task_counter := 1 }

/-- Fixture: a completed Manual-mode task registered as "d". -/
def doneTask : ProgressTask :=
  { task_id := "d", name := "D", status := .completed, progress := 1,
    completion_time := some 4, update_count := 3 }

def doneFix : ManagerState := { tasks := [("d", doneTask)], task_counter := 1 }

/-- Fixture: a running Manual-mode task registered as "m". -/
def manualTask : ProgressTask :=
  { task_id := "m", name := "M", status := .running, progress := 1 / 4,
    start_time := some 0 }

def manualFix : ManagerState := { tasks := [("m", manualTask)], task_counter := 1 }

/-! ### Claims -/

/-- C1: after every manager operation every registered task satisfies
`0.0 ≤ progress ≤ 1.0` (both as single-step preservation and along any
operation sequence from the initial empty registry), and an accepted
`update_progress` stores exactly `max(0.0, min(1.0, value))` and returns
`True` even for out-of-range input. -/
theorem C1_progress_always_clamped :
    (∀ (s : ManagerState) (op : Op), ProgressInRange s →
      ProgressInRange (applyOp s op)) ∧
    (∀ ops : List Op, ProgressInRange (applyOps initialState ops)) ∧
    (∀ (s : ManagerState) (id : String) (v : ℚ) (a f : Bool) (now : ℚ)
      (task : ProgressTask), get_task s id = some task →
      (f = true ∨ task.progress_mode = .manual) →
      (update_progress s id v a f now).1 = true ∧
      ∃ t', get_task (update_progress s id v a f now).2.1 id = some t' ∧
        t'.progress = max 0 (min 1 v)) := by
  refine ⟨progressInRange_applyOp,
    fun ops => progressInRange_applyOps ops initialState progressInRange_initial,
    ?_⟩
  intro s id v a f now task h hacc
  obtain ⟨h1, t', ht', hprog, _, _⟩ :=
    update_progress_final_task s id v a f now task h hacc
  exact ⟨h1, t', ht', hprog⟩

theorem C1_progress_always_clamped_witness :
    ProgressInRange (applyOp manualFix (Op.update "m" 7 true false 2)) ∧
    (update_progress manualFix "m" 7 true false 2).1 = true := by
  have hinv : ProgressInRange manualFix := by
    intro p hp
    simp only [manualFix, List.mem_singleton] at hp
    subst hp
    constructor <;> norm_num [manualTask]
  refine ⟨C1_progress_always_clamped.1 manualFix (Op.update "m" 7 true false 2)
    hinv, ?_⟩
  exact (C1_progress_always_clamped.2.2 manualFix "m" 7 true false 2 manualTask
    rfl (Or.inr rfl)).1

/-- C2: `is_auto_running` implies Automatic mode and non-completed status
after every operation (single-step preservation and along any sequence from
the initial state); `_start_auto_progress` succeeds only on non-completed
Automatic tasks; completion and a mode switch to Manual both leave
`is_auto_running = False` on the task. -/
theorem C2_auto_running_invariant :
    (∀ (s : ManagerState) (op : Op), AutoTimerInv s →
      AutoTimerInv (applyOp s op)) ∧
    (∀ ops : List Op, AutoTimerInv (applyOps initialState ops)) ∧
    (∀ (s : ManagerState) (id : String) (now : ℚ),
      (start_auto_progress s id now).1 = true →
      ∃ task, get_task s id = some task ∧
        task.progress_mode = .automatic ∧ task.status ≠ .completed) ∧
    (∀ (s : ManagerState) (id : String) (now : ℚ) (task : ProgressTask),
      AutoTimerInv s → get_task s id = some task →
      ∃ t', get_task (complete_task s id now).2.1 id = some t' ∧
        t'.is_auto_running = false) ∧
    (∀ (s : ManagerState) (id : String) (now : ℚ) (task : ProgressTask),
      get_task s id = some task → task.status ≠ .completed →
      (set_task_mode s id .manual now).1 = true ∧
      ∃ t', get_task (set_task_mode s id .manual now).2.1 id = some t' ∧
        t'.is_auto_running = false) := by
  refine ⟨autoInv_applyOp,
    fun ops => autoInv_applyOps ops initialState autoInv_initial, ?_, ?_, ?_⟩
  · intro s id now htrue
    unfold start_auto_progress at htrue
    cases h : get_task s id with
    | none => rw [h] at htrue; simp at htrue
    | some task =>
      rw [h] at htrue
      dsimp only at htrue
      refine ⟨task, rfl, ?_⟩
      split at htrue
      · simp at htrue
      · split at htrue
        · simp at htrue
        · rename_i hnc hnauto
          refine ⟨by simpa using not_not.mp hnauto, by simpa using hnc⟩
  · intro s id now task hs h
    by_cases hc : task.status = .completed
    · rw [complete_task_already s id now task h hc]
      refine ⟨task, h, ?_⟩
      have hmem := hs (id, task) (mem_of_lookupTask h)
      cases hr : task.is_auto_running
      · rfl
      · exact absurd hc (hmem hr).2
    · have hs2 : get_task (modifyTask s id (completeApply now)) id =
          some (completeApply now task) := by
        rw [get_task_modifyTask]; simp [h]
      by_cases hst : task.start_time = none
      · rw [complete_task_crash s id now task h hc hst]
        rw [handle_task_error_found _ id completeCrashMsg
          (completeApply now task) hs2]
        refine ⟨failApply completeCrashMsg (completeApply now task), ?_, rfl⟩
        dsimp only
        rw [get_task_modifyTask]
        simp [hs2]
      · rw [complete_task_first s id now task h hc hst]
        refine ⟨completeApply now task, ?_, rfl⟩
        dsimp only
        rw [get_task_modifyTask]
        simp [h]
  · intro s id now task h hnc
    rw [set_task_mode_manual_eq s id now task h hnc]
    refine ⟨rfl, ?_⟩
    dsimp only
    by_cases hrun : task.is_auto_running = true
    · rw [if_pos hrun]
      refine ⟨disarmApply (modeApply .manual task), ?_, rfl⟩
      rw [get_task_modifyTask]
      simp [h]
    · rw [if_neg hrun]
      refine ⟨modeApply .manual task, ?_, ?_⟩
      · rw [get_task_modifyTask]
        simp [h]
      · cases hb : task.is_auto_running
        · simp [modeApply, hb]
        · exact absurd hb hrun

theorem C2_auto_running_invariant_witness :
    AutoTimerInv (applyOp autoFix (Op.startAuto "x" 0)) ∧
    (∃ task, get_task autoFix "x" = some task ∧
      task.progress_mode = .automatic ∧ task.status ≠ .completed) := by
  have hinv : AutoTimerInv autoFix := by
    intro p hp
    simp only [autoFix, List.mem_singleton] at hp
    subst hp
    intro hrun
    simp [autoTask] at hrun
  refine ⟨C2_auto_running_invariant.1 autoFix (Op.startAuto "x" 0) hinv, ?_⟩
  exact C2_auto_running_invariant.2.2.1 autoFix "x" 0 (by decide)

/-- C3: an unforced `update_progress` on an Automatic-mode task returns
`False`, leaves the whole manager state — hence the task's progress,
status and update count — unchanged, and emits no event. -/
theorem C3_automatic_rejects_unforced_update (s : ManagerState) (id : String)
    (v : ℚ) (a : Bool) (now : ℚ) (task : ProgressTask)
    (h : get_task s id = some task)
    (hmode : task.progress_mode = .automatic) :
    update_progress s id v a false now = (false, s, []) :=
  update_progress_rejected s id v a now task h hmode

theorem C3_automatic_rejects_unforced_update_witness :
    update_progress autoFix "x" 2 true false 3 = (false, autoFix, []) :=
  C3_automatic_rejects_unforced_update autoFix "x" 2 true 3 autoTask rfl rfl

/-- C4: completion fires exactly once — `complete_task` on an
already-completed task is a `True`-returning no-op with no event, and any
further `update_progress` with value `1.0` leaves the status `Completed`
and never re-emits `taskCompleted`. -/
theorem C4_completion_fires_once (s : ManagerState) (id : String)
    (now : ℚ) (task : ProgressTask) (h : get_task s id = some task)
    (hc : task.status = .completed) :
    complete_task s id now = (true, s, []) ∧
    ∀ (a f : Bool) (now2 : ℚ),
      (∃ t', get_task (update_progress s id 1 a f now2).2.1 id = some t' ∧
        t'.status = .completed) ∧
      Event.taskCompleted id ∉ (update_progress s id 1 a f now2).2.2 := by
  refine ⟨complete_task_already s id now task h hc, ?_⟩
  intro a f now2
  by_cases hf : f = true ∨ task.progress_mode = .manual
  · rw [update_progress_accepted_plain s id 1 a f now2 task h hf (by simp [hc])]
    constructor
    · refine ⟨updApply 1 now2 task, ?_, ?_⟩
      · dsimp only
        rw [get_task_modifyTask]
        simp [h]
      · rw [updApply_status_ne_created 1 now2 task (by simp [hc])]
        exact hc
    · dsimp only
      split <;> simp
  · have hf' : f = false := by
      cases f
      · rfl
      · exact absurd (Or.inl rfl) hf
    have hmode : task.progress_mode = .automatic := by
      cases hm : task.progress_mode
      · exact absurd (Or.inr hm) hf
      · rfl
    subst hf'
    rw [update_progress_rejected s id 1 a now2 task h hmode]
    exact ⟨⟨task, h, hc⟩, by simp⟩

theorem C4_completion_fires_once_witness :
    complete_task doneFix "d" 9 = (true, doneFix, []) ∧
    (∃ t', get_task (update_progress doneFix "d" 1 true true 9).2.1 "d" =
      some t' ∧ t'.status = .completed) ∧
    Event.taskCompleted "d" ∉ (update_progress doneFix "d" 1 true true 9).2.2 := by
  have hmain := C4_completion_fires_once doneFix "d" 9 doneTask rfl rfl
  exact ⟨hmain.1, (hmain.2 true true 9).1, (hmain.2 true true 9).2⟩

/-- C7: an accepted `update_progress` returns `True` and bumps
`update_count`, and a `taskUpdated` event is emitted exactly when the
absolute difference between the previous progress and the clamped stored
progress exceeds `0.001`. -/
theorem C7_taskUpdated_epsilon (s : ManagerState) (id : String) (v : ℚ)
    (a f : Bool) (now : ℚ) (task : ProgressTask)
    (h : get_task s id = some task)
    (hacc : f = true ∨ task.progress_mode = .manual) :
    (update_progress s id v a f now).1 = true ∧
    (∃ t', get_task (update_progress s id v a f now).2.1 id = some t' ∧
      t'.update_count = task.update_count + 1) ∧
    ((Event.taskUpdated id (max 0 (min 1 v)) ∈
        (update_progress s id v a f now).2.2) ↔
      |task.progress - max 0 (min 1 v)| > 1 / 1000) ∧
    (∀ q : ℚ, Event.taskUpdated id q ∈ (update_progress s id v a f now).2.2 →
      |task.progress - max 0 (min 1 v)| > 1 / 1000) := by
  obtain ⟨h1, t', ht', _, hcount, _⟩ :=
    update_progress_final_task s id v a f now task h hacc
  have hev : ∀ q : ℚ,
      Event.taskUpdated id q ∈ (update_progress s id v a f now).2.2 ↔
      (|task.progress - max 0 (min 1 v)| > 1 / 1000 ∧
        q = max 0 (min 1 v)) := by
    intro q
    by_cases hdone : (1:ℚ) ≤ max 0 (min 1 v) ∧ task.status ≠ .completed
    · rw [update_progress_accepted_done s id v a f now task h hacc
        hdone.1 hdone.2]
      dsimp only
      constructor
      · intro hm
        rcases List.mem_append.mp hm with hm | hm
        · split at hm
          · rename_i hgt
            simp at hm
            exact ⟨hgt, hm⟩
          · simp at hm
        · rcases mem_complete_task_events _ _ _ _ hm with he | he <;>
            simp at he
      · rintro ⟨hgt, hq⟩
        subst hq
        refine List.mem_append.mpr (Or.inl ?_)
        rw [if_pos hgt]
        exact List.mem_singleton.mpr rfl
    · rw [update_progress_accepted_plain s id v a f now task h hacc hdone]
      dsimp only
      constructor
      · intro hm
        split at hm
        · rename_i hgt
          simp at hm
          exact ⟨hgt, hm⟩
        · simp at hm
      · rintro ⟨hgt, hq⟩
        subst hq
        rw [if_pos hgt]
        exact List.mem_singleton.mpr rfl
  refine ⟨h1, ⟨t', ht', hcount⟩, ?_, fun q hq => ((hev q).mp hq).1⟩
  constructor
  · intro hm
    exact ((hev _).mp hm).1
  · intro hgt
    exact (hev _).mpr ⟨hgt, rfl⟩

theorem C7_taskUpdated_epsilon_witness :
    (update_progress manualFix "m" (1/2) true false 6).1 = true ∧
    Event.taskUpdated "m" (max 0 (min 1 (1/2))) ∈
      (update_progress manualFix "m" (1/2) true false 6).2.2 := by
  have hmain := C7_taskUpdated_epsilon manualFix "m" (1/2) true false 6
    manualTask rfl (Or.inr rfl)
  refine ⟨hmain.1, hmain.2.2.1.mpr ?_⟩
  have h1 : max 0 (min 1 ((1:ℚ)/2)) = 1/2 := by
    rw [min_eq_right (by norm_num : ((1:ℚ)/2) ≤ 1)]
    exact max_eq_right (by norm_num)
  have h2 : manualTask.progress = 1/4 := rfl
  rw [h1, h2, abs_of_neg (by norm_num : ((1:ℚ)/4 - 1/2) < 0)]
  norm_num

/-- C10: a completed task is not protected from further mutation — a
forced (or Manual-mode) `update_progress` with any value returns `True`,
overwrites `progress` with the clamp of the value (possibly strictly below
`1.0`), bumps `update_count`, leaves the status `Completed`, and emits no
completion event. -/
theorem C10_completed_task_still_mutable (s : ManagerState) (id : String)
    (v : ℚ) (a f : Bool) (now : ℚ) (task : ProgressTask)
    (h : get_task s id = some task) (hc : task.status = .completed)
    (hacc : f = true ∨ task.progress_mode = .manual) :
    (update_progress s id v a f now).1 = true ∧
    (∃ t', get_task (update_progress s id v a f now).2.1 id = some t' ∧
      t'.progress = max 0 (min 1 v) ∧
      t'.update_count = task.update_count + 1 ∧
      t'.status = .completed) ∧
    Event.taskCompleted id ∉ (update_progress s id v a f now).2.2 := by
  obtain ⟨h1, t', ht', hprog, hcount, hstat⟩ :=
    update_progress_final_task s id v a f now task h hacc
  refine ⟨h1, ⟨t', ht', hprog, hcount, hstat hc⟩, ?_⟩
  rw [update_progress_accepted_plain s id v a f now task h hacc (by simp [hc])]
  dsimp only
  split <;> simp

theorem C10_completed_task_still_mutable_witness :
    (update_progress doneFix "d" (1/2) true true 11).1 = true ∧
    (∃ t', get_task (update_progress doneFix "d" (1/2) true true 11).2.1 "d" =
      some t' ∧ t'.progress = max 0 (min 1 (1/2)) ∧
      t'.update_count = doneTask.update_count + 1 ∧
      t'.status = .completed) ∧
    Event.taskCompleted "d" ∉
      (update_progress doneFix "d" (1/2) true true 11).2.2 :=
  C10_completed_task_still_mutable doneFix "d" (1/2) true true 11 doneTask
    rfl rfl (Or.inl rfl)

/-- `_all_tasks_completed` holds exactly when every registered task has
status `Completed`. -/
theorem all_tasks_completed_iff (s : ManagerState) :
    all_tasks_completed s = true ↔
      ∀ p ∈ s.tasks, p.2.status = .completed := by
  unfold all_tasks_completed get_active_tasks
  simp [List.length_eq_zero, List.filter_eq_nil_iff]

/-- Fixture for C5: task "a" is Running (Manual mode, started at 0) and
task "b" has already Failed. -/
def failedTask : ProgressTask :=
  { task_id := "b", name := "B", status := .failed,
    error_message := some "boom" }

def runningTask : ProgressTask :=
  { task_id := "a", name := "A", status := .running, start_time := some 0 }

def failedMixFix : ManagerState :=
  { tasks := [("a", runningTask), ("b", failedTask)], task_counter := 2 }

/-- Fixture for the crash side of C5: a freshly created Manual task "f"
that was never started (`start_time = None`). -/
def freshTask : ProgressTask := { task_id := "f", name := "F" }

def freshFix : ManagerState := { tasks := [("f", freshTask)], task_counter := 1 }

/-- C5 counterexample, two concrete refutations: (a) completing the last
non-terminal task while a `Failed` task remains does not emit
`allTasksCompleted`, although the claim says terminal `Failed`/`Cancelled`
tasks do not prevent the emission; (b) a first `complete_task` on a
never-started task does not complete it at all — the completion log line
crashes on `duration:.2f`, the task ends `Failed`, a `taskFailed` event is
emitted and the call returns `False`. -/
theorem C5_counterexample :
    ((complete_task failedMixFix "a" 5).1 = true ∧
     Event.taskCompleted "a" ∈ (complete_task failedMixFix "a" 5).2.2 ∧
     (∀ p ∈ (complete_task failedMixFix "a" 5).2.1.tasks,
       p.2.status ≠ .created ∧ p.2.status ≠ .running ∧ p.2.status ≠ .paused) ∧
     Event.allTasksCompleted ∉ (complete_task failedMixFix "a" 5).2.2) ∧
    ((complete_task freshFix "f" 5).1 = false ∧
     (∀ p ∈ (complete_task freshFix "f" 5).2.1.tasks, p.2.status = .failed) ∧
     Event.taskFailed "f" completeCrashMsg ∈
       (complete_task freshFix "f" 5).2.2) := by
  decide

/-- C5 (amended): on first completion of a task with a stamped
`start_time`, `complete_task` returns `True`, sets `status = Completed`,
`progress = 1.0`, stamps the completion time, clears `is_auto_running` and
releases the timer, emits `taskCompleted`, and additionally emits
`allTasksCompleted` iff every task left in the registry has status
`Completed` — a remaining `Failed` or `Cancelled` task does prevent the
global event.  On a never-started task (`start_time = None`) the same
mutations and emissions happen but the completion log line then raises
`TypeError`, the task is re-marked `Failed` with `taskFailed` emitted, and
the call returns `False`. -/
theorem C5_first_completion_events (s : ManagerState) (id : String)
    (now : ℚ) (task : ProgressTask) (h : get_task s id = some task)
    (hnc : task.status ≠ .completed) :
    (task.start_time ≠ none →
      (complete_task s id now).1 = true ∧
      get_task (complete_task s id now).2.1 id =
        some { task with status := .completed, progress := 1,
                         completion_time := some now,
                         is_auto_running := false, timer := false } ∧
      Event.taskCompleted id ∈ (complete_task s id now).2.2 ∧
      (Event.allTasksCompleted ∈ (complete_task s id now).2.2 ↔
        ∀ p ∈ (complete_task s id now).2.1.tasks,
          p.2.status = .completed)) ∧
    (task.start_time = none →
      (complete_task s id now).1 = false ∧
      get_task (complete_task s id now).2.1 id =
        some (failApply completeCrashMsg (completeApply now task)) ∧
      Event.taskCompleted id ∈ (complete_task s id now).2.2 ∧
      Event.taskFailed id completeCrashMsg ∈
        (complete_task s id now).2.2) := by
  have hs2 : get_task (modifyTask s id (completeApply now)) id =
      some (completeApply now task) := by
    rw [get_task_modifyTask]; simp [h]
  constructor
  · intro hst
    rw [complete_task_first s id now task h hnc hst]
    refine ⟨rfl, ?_, List.mem_cons_self _ _, ?_⟩
    · dsimp only
      rw [get_task_modifyTask]
      simp [h, completeApply]
    · dsimp only
      constructor
      · intro hm
        rcases List.mem_cons.mp hm with he | he
        · exact absurd he (by simp)
        · split at he
          · rename_i hall
            exact (all_tasks_completed_iff _).mp hall
          · simp at he
      · intro hall
        refine List.mem_cons_of_mem _ ?_
        rw [if_pos ((all_tasks_completed_iff _).mpr hall)]
        exact List.mem_singleton.mpr rfl
  · intro hst
    rw [complete_task_crash s id now task h hnc hst]
    rw [handle_task_error_found _ id completeCrashMsg
      (completeApply now task) hs2]
    refine ⟨rfl, ?_, ?_, ?_⟩
    · dsimp only
      rw [get_task_modifyTask]
      simp [hs2]
    · exact List.mem_append.mpr (Or.inl (List.mem_cons_self _ _))
    · exact List.mem_append.mpr (Or.inr (List.mem_singleton.mpr rfl))

theorem C5_first_completion_events_witness :
    ((complete_task manualFix "m" 8).1 = true ∧
     Event.taskCompleted "m" ∈ (complete_task manualFix "m" 8).2.2) ∧
    ((complete_task freshFix "f" 8).1 = false ∧
     Event.taskFailed "f" completeCrashMsg ∈
       (complete_task freshFix "f" 8).2.2) := by
  have h1 := (C5_first_completion_events manualFix "m" 8 manualTask rfl
    (by decide)).1 (by decide)
  have h2 := (C5_first_completion_events freshFix "f" 8 freshTask rfl
    (by decide)).2 rfl
  exact ⟨⟨h1.1, h1.2.2.1⟩, ⟨h2.1, h2.2.2.2⟩⟩

/-- Fixture for C6: an armed, running Automatic-mode task "r". -/
def armedTask : ProgressTask :=
  { task_id := "r", name := "R", status := .running,
    progress_mode := .automatic, is_auto_running := true, timer := true,
    start_time := some 0 }

def armedFix : ManagerState := { tasks := [("r", armedTask)], task_counter := 1 }

/-- The micro-trace of `set_task_mode(id, Manual)` on a non-completed
armed task: entry state, state after the mode-field assignment (line 240),
state after the timer stop (line 244). -/
theorem set_task_mode_trace_manual_armed (s : ManagerState) (id : String)
    (now : ℚ) (task : ProgressTask) (h : get_task s id = some task)
    (hnc : task.status ≠ .completed) (hrun : task.is_auto_running = true) :
    set_task_mode_trace s id .manual now =
      [s, modifyTask s id (modeApply .manual),
       modifyTask s id (fun t => disarmApply (modeApply .manual t))] := by
  unfold set_task_mode_trace
  rw [h]
  dsimp only
  rw [if_neg (by simpa using hnc)]
  rw [if_pos ⟨rfl, hrun⟩]
  unfold stop_auto_progress
  rw [get_task_modifyTask]
  simp [h]
  rw [modifyTask_modifyTask]

/-- C6 counterexample: on a concrete armed Automatic task the intermediate
state of `set_task_mode(id, Manual)` right after the mode assignment holds
`progress_mode = Manual` while `is_auto_running` and the timer are still
set — the source flips the mode before disarming, not after. -/
theorem C6_counterexample :
    (set_task_mode_trace armedFix "r" .manual 7).map
      (fun st => (get_task st "r").map
        (fun t => (t.progress_mode, t.is_auto_running, t.timer))) =
    [some (.automatic, true, true),
     some (.manual, true, true),
     some (.manual, false, false)] := by
  decide

/-- C6 (amended): switching an armed Automatic task to Manual flips the
mode field first — the intermediate state after line 240 still holds the
armed timer — and disarms the timer only afterwards, within the same call;
once `set_task_mode` returns `True`, the task is Manual with
`is_auto_running = False` and the timer stopped and released. -/
theorem C6_mode_flip_then_disarm (s : ManagerState) (id : String)
    (now : ℚ) (task : ProgressTask) (h : get_task s id = some task)
    (hnc : task.status ≠ .completed)
    (hauto : task.progress_mode = .automatic)
    (hrun : task.is_auto_running = true) :
    (set_task_mode s id .manual now).1 = true ∧
    set_task_mode_trace s id .manual now =
      [s, modifyTask s id (modeApply .manual),
       modifyTask s id (fun t => disarmApply (modeApply .manual t))] ∧
    get_task (modifyTask s id (modeApply .manual)) id =
      some (modeApply .manual task) ∧
    (modeApply .manual task).progress_mode = .manual ∧
    (modeApply .manual task).is_auto_running = true ∧
    (modeApply .manual task).timer = task.timer ∧
    get_task (set_task_mode s id .manual now).2.1 id =
      some (disarmApply (modeApply .manual task)) ∧
    (disarmApply (modeApply .manual task)).progress_mode = .manual ∧
    (disarmApply (modeApply .manual task)).is_auto_running = false ∧
    (disarmApply (modeApply .manual task)).timer = false := by
  refine ⟨?_, set_task_mode_trace_manual_armed s id now task h hnc hrun,
    ?_, rfl, by simp [modeApply, hrun], rfl, ?_, rfl, rfl, rfl⟩
  · rw [set_task_mode_manual_eq s id now task h hnc]
  · rw [get_task_modifyTask]
    simp [h]
  · rw [set_task_mode_manual_eq s id now task h hnc]
    dsimp only
    rw [if_pos hrun]
    rw [get_task_modifyTask]
    simp [h]

theorem C6_mode_flip_then_disarm_witness :
    (set_task_mode armedFix "r" .manual 7).1 = true ∧
    (modeApply .manual armedTask).is_auto_running = true ∧
    (disarmApply (modeApply .manual armedTask)).is_auto_running = false := by
  obtain ⟨h1, -, -, -, h5, -, -, -, h9, -⟩ :=
    C6_mode_flip_then_disarm armedFix "r" 7 armedTask rfl (by decide) rfl rfl
  exact ⟨h1, h5, h9⟩

/-! ### Bulk start/stop machinery (C8) -/

/-- The eligibility test of the `start_auto_progress_for_all` loop
(line 450): automatic mode, not completed, not already armed. -/
def startEligible (t : ProgressTask) : Prop :=
  t.is_automatic_mode = true ∧ ¬ t.is_completed = true ∧
    ¬ t.is_auto_running = true

instance (t : ProgressTask) : Decidable (startEligible t) := by
  unfold startEligible
  infer_instance

theorem lookupTask_eq_none (l : TaskMap) (k : String)
    (hk : k ∉ l.map Prod.fst) : lookupTask l k = none := by
  induction l with
  | nil => rfl
  | cons p rest ih =>
    simp only [List.map_cons, List.mem_cons] at hk
    push_neg at hk
    simp only [lookupTask]
    rw [if_neg (fun h => hk.1 h.symm)]
    exact ih hk.2

theorem start_auto_progress_eligible (s : ManagerState) (id : String)
    (now : ℚ) (task : ProgressTask) (h : get_task s id = some task)
    (he : startEligible task) :
    start_auto_progress s id now = (true, modifyTask s id (armApply now)) := by
  unfold start_auto_progress
  rw [h]
  dsimp only
  rw [if_neg he.2.1, if_neg (not_not.mpr he.1), if_neg he.2.2]

theorem start_auto_progress_ineligible (s : ManagerState) (id : String)
    (now : ℚ) (task : ProgressTask) (h : get_task s id = some task)
    (he : ¬ startEligible task) :
    (start_auto_progress s id now).2 = s := by
  unfold start_auto_progress
  rw [h]
  dsimp only
  split
  · rfl
  · split
    · rfl
    · split
      · rfl
      · rename_i h1 h2 h3
        exact absurd ⟨not_not.mp h2, h1, h3⟩ he

theorem startAllAux_lookup (now : ℚ) (ids : List String) :
    ∀ (s : ManagerState), ids.Nodup → ∀ k : String,
      get_task (startAllAux now s ids).2 k =
        if k ∈ ids then
          (get_task s k).map
            (fun t => if startEligible t then armApply now t else t)
        else get_task s k := by
  induction ids with
  | nil =>
    intro s _ k
    simp [startAllAux]
  | cons id rest ih =>
    intro s hnd k
    have hnd2 := (List.nodup_cons.mp hnd).2
    have hid : id ∉ rest := (List.nodup_cons.mp hnd).1
    unfold startAllAux
    cases h : get_task s id with
    | none =>
      rw [ih s hnd2 k]
      by_cases hk : k = id
      · subst hk
        simp [h, hid]
      · simp [List.mem_cons, hk]
    | some task =>
      dsimp only
      split
      · rename_i hcond
        have he : startEligible task := hcond
        rw [start_auto_progress_eligible s id now task h he]
        dsimp only
        rw [ih _ hnd2 k]
        by_cases hk : k = id
        · subst hk
          rw [if_neg (fun hmem => hid hmem)]
          rw [get_task_modifyTask, if_pos rfl, h]
          simp [List.mem_cons, he]
        · rw [get_task_modifyTask, if_neg hk]
          simp [List.mem_cons, hk]
      · rename_i hcond
        have he : ¬ startEligible task := fun hc => hcond ⟨hc.1, hc.2.1, hc.2.2⟩
        rw [ih s hnd2 k]
        by_cases hk : k = id
        · subst hk
          rw [if_neg (fun hmem => hid hmem)]
          simp [List.mem_cons, h, he]
        · simp [List.mem_cons, hk]

theorem startAllAux_count (now : ℚ) (ids : List String) :
    ∀ s : ManagerState, ids.Nodup →
      (startAllAux now s ids).1 =
        ids.countP (fun id =>
          ((get_task s id).map (fun t => decide (startEligible t))).getD false) := by
  induction ids with
  | nil =>
    intro s _
    simp [startAllAux]
  | cons id rest ih =>
    intro s hnd
    have hnd2 := (List.nodup_cons.mp hnd).2
    have hid : id ∉ rest := (List.nodup_cons.mp hnd).1
    unfold startAllAux
    cases h : get_task s id with
    | none =>
      rw [List.countP_cons, ih s hnd2]
      simp [h]
    | some task =>
      dsimp only
      split
      · rename_i hcond
        have he : startEligible task := hcond
        rw [start_auto_progress_eligible s id now task h he]
        dsimp only
        rw [if_pos rfl, ih _ hnd2, List.countP_cons]
        have hcongr : ∀ id2 ∈ rest,
            ((get_task (modifyTask s id (armApply now)) id2).map
              (fun t => decide (startEligible t))).getD false =
            ((get_task s id2).map
              (fun t => decide (startEligible t))).getD false := by
          intro id2 hmem
          rw [get_task_modifyTask,
            if_neg (fun hk : id2 = id => hid (hk ▸ hmem))]
        rw [List.countP_congr (fun x hx => by rw [hcongr x hx])]
        simp [h, he]
      · rename_i hcond
        have he : ¬ startEligible task := fun hc => hcond ⟨hc.1, hc.2.1, hc.2.2⟩
        rw [ih s hnd2, List.countP_cons]
        simp [h, he]

theorem stop_auto_progress_found (s : ManagerState) (id : String)
    (task : ProgressTask) (h : get_task s id = some task) :
    stop_auto_progress s id = (true, modifyTask s id disarmApply) := by
  unfold stop_auto_progress
  rw [h]

theorem stopAllAux_lookup (ids : List String) :
    ∀ (s : ManagerState), ids.Nodup → ∀ k : String,
      get_task (stopAllAux s ids).2 k =
        if k ∈ ids then
          (get_task s k).map
            (fun t => if t.is_auto_running = true then disarmApply t else t)
        else get_task s k := by
  induction ids with
  | nil =>
    intro s _ k
    simp [stopAllAux]
  | cons id rest ih =>
    intro s hnd k
    have hnd2 := (List.nodup_cons.mp hnd).2
    have hid : id ∉ rest := (List.nodup_cons.mp hnd).1
    unfold stopAllAux
    cases h : get_task s id with
    | none =>
      rw [ih s hnd2 k]
      by_cases hk : k = id
      · subst hk
        simp [h, hid]
      · simp [List.mem_cons, hk]
    | some task =>
      dsimp only
      split
      · rename_i hrun
        rw [stop_auto_progress_found s id task h]
        dsimp only
        rw [ih _ hnd2 k]
        by_cases hk : k = id
        · subst hk
          rw [if_neg (fun hmem => hid hmem)]
          rw [get_task_modifyTask, if_pos rfl, h]
          simp [List.mem_cons, hrun]
        · rw [get_task_modifyTask, if_neg hk]
          simp [List.mem_cons, hk]
      · rename_i hrun
        rw [ih s hnd2 k]
        by_cases hk : k = id
        · subst hk
          rw [if_neg (fun hmem => hid hmem)]
          simp [List.mem_cons, h, hrun]
        · simp [List.mem_cons, hk]

theorem stopAllAux_count (ids : List String) :
    ∀ s : ManagerState, ids.Nodup →
      (stopAllAux s ids).1 =
        ids.countP (fun id =>
          ((get_task s id).map (fun t => t.is_auto_running)).getD false) := by
  induction ids with
  | nil =>
    intro s _
    simp [stopAllAux]
  | cons id rest ih =>
    intro s hnd
    have hnd2 := (List.nodup_cons.mp hnd).2
    have hid : id ∉ rest := (List.nodup_cons.mp hnd).1
    unfold stopAllAux
    cases h : get_task s id with
    | none =>
      rw [List.countP_cons, ih s hnd2]
      simp [h]
    | some task =>
      dsimp only
      split
      · rename_i hrun
        rw [stop_auto_progress_found s id task h]
        dsimp only
        rw [if_pos rfl, ih _ hnd2, List.countP_cons]
        have hcongr : ∀ id2 ∈ rest,
            ((get_task (modifyTask s id disarmApply) id2).map
              (fun t => t.is_auto_running)).getD false =
            ((get_task s id2).map (fun t => t.is_auto_running)).getD false := by
          intro id2 hmem
          rw [get_task_modifyTask,
            if_neg (fun hk : id2 = id => hid (hk ▸ hmem))]
        rw [List.countP_congr (fun x hx => by rw [hcongr x hx])]
        simp [h, hrun]
      · rename_i hrun
        rw [ih s hnd2, List.countP_cons]
        have hrun2 : task.is_auto_running = false :=
          Bool.not_eq_true _ ▸ Bool.of_not_eq_true hrun
        simp [h, hrun2]

/-- Counting eligible keys through the lookup equals counting eligible
entries, for a registry with distinct keys. -/
theorem countP_keys_lookup (P : ProgressTask → Bool) (l : TaskMap) :
    (l.map Prod.fst).Nodup →
    (l.map Prod.fst).countP
      (fun id => ((lookupTask l id).map P).getD false) =
    (l.filter (fun p => P p.2)).length := by
  induction l with
  | nil => intro; rfl
  | cons p rest ih =>
    intro hnd
    simp only [List.map_cons, List.nodup_cons] at hnd
    simp only [List.map_cons, List.countP_cons]
    have hhead : ((lookupTask (p :: rest) p.1).map P).getD false = P p.2 := by
      simp [lookupTask]
    have htail : ∀ id ∈ rest.map Prod.fst,
        ((lookupTask (p :: rest) id).map P).getD false =
        ((lookupTask rest id).map P).getD false := by
      intro id hmem
      have hne : p.1 ≠ id := fun h => hnd.1 (h ▸ hmem)
      simp [lookupTask, hne]
    rw [List.countP_congr (fun x hx => by rw [htail x hx]), ih hnd.2, hhead]
    by_cases hP : P p.2 = true
    · simp [List.filter_cons, hP]
    · simp [List.filter_cons, hP]

/-- Fixture for C8: three freshly created tasks, two Automatic ("x", "y")
and one Manual ("z"). -/
def bulkFix : ManagerState :=
  (create_task (create_task (create_task initialState
    none .automatic false "x" 0).2.1
    none .automatic false "y" 0).2.1
    none .manual false "z" 0).2.1

/-- C8: `start_auto_progress_for_all` arms exactly the Automatic,
non-completed, not-yet-armed tasks and returns their count;
`stop_auto_progress_for_all` disarms exactly the `is_auto_running` tasks
and returns their count; a Manual-mode task is left untouched by the bulk
start; and on two fresh Automatic tasks plus one Manual task, start returns
2 and a subsequent stop returns 2. -/
theorem C8_bulk_start_stop (s : ManagerState) (now : ℚ)
    (hnd : (s.tasks.map Prod.fst).Nodup) :
    ((start_auto_progress_for_all s now).1 =
      (s.tasks.filter (fun p => decide (startEligible p.2))).length ∧
     ∀ k, get_task (start_auto_progress_for_all s now).2 k =
      (get_task s k).map
        (fun t => if startEligible t then armApply now t else t)) ∧
    ((stop_auto_progress_for_all s).1 =
      (s.tasks.filter (fun p => p.2.is_auto_running)).length ∧
     ∀ k, get_task (stop_auto_progress_for_all s).2 k =
      (get_task s k).map
        (fun t => if t.is_auto_running = true then disarmApply t else t)) ∧
    (∀ k task, get_task s k = some task → task.progress_mode = .manual →
      get_task (start_auto_progress_for_all s now).2 k = some task) ∧
    ((start_auto_progress_for_all bulkFix 1).1 = 2 ∧
     (stop_auto_progress_for_all (start_auto_progress_for_all bulkFix 1).2).1 = 2) := by
  have hstartPt : ∀ k, get_task (start_auto_progress_for_all s now).2 k =
      (get_task s k).map
        (fun t => if startEligible t then armApply now t else t) := by
    intro k
    unfold start_auto_progress_for_all
    rw [startAllAux_lookup now (s.tasks.map Prod.fst) s hnd k]
    by_cases hk : k ∈ s.tasks.map Prod.fst
    · rw [if_pos hk]
    · rw [if_neg hk]
      have hnone : get_task s k = none := lookupTask_eq_none s.tasks k hk
      simp [hnone]
  refine ⟨⟨?_, hstartPt⟩, ⟨?_, ?_⟩, ?_, by decide⟩
  · unfold start_auto_progress_for_all
    rw [startAllAux_count now (s.tasks.map Prod.fst) s hnd]
    exact countP_keys_lookup (fun t => decide (startEligible t)) s.tasks hnd
  · unfold stop_auto_progress_for_all
    rw [stopAllAux_count (s.tasks.map Prod.fst) s hnd]
    exact countP_keys_lookup (fun t => t.is_auto_running) s.tasks hnd
  · intro k
    unfold stop_auto_progress_for_all
    rw [stopAllAux_lookup (s.tasks.map Prod.fst) s hnd k]
    by_cases hk : k ∈ s.tasks.map Prod.fst
    · rw [if_pos hk]
    · rw [if_neg hk]
      have hnone : get_task s k = none := lookupTask_eq_none s.tasks k hk
      simp [hnone]
  · intro k task h hman
    rw [hstartPt k, h]
    have hne : ¬ startEligible task := by
      intro he
      have h1 : task.is_automatic_mode = true := he.1
      rw [is_automatic_iff, hman] at h1
      exact absurd h1 (by simp)
    simp [hne]

theorem C8_bulk_start_stop_witness :
    (start_auto_progress_for_all bulkFix 1).1 = 2 ∧
    (stop_auto_progress_for_all (start_auto_progress_for_all bulkFix 1).2).1 = 2 :=
  (C8_bulk_start_stop bulkFix 1 (by decide)).2.2.2

/-! ### Clear-completed machinery (C9) -/

theorem remove_task_found (s : ManagerState) (id : String)
    (task : ProgressTask) (h : get_task s id = some task) :
    remove_task s id = (true, { s with tasks := eraseTasks s.tasks id }) := by
  unfold remove_task
  rw [h]

theorem eraseTasks_eq_filter (l : TaskMap) (id : String)
    (hnd : (l.map Prod.fst).Nodup) :
    eraseTasks l id = l.filter (fun p => ¬ p.1 = id) := by
  induction l with
  | nil => rfl
  | cons p rest ih =>
    simp only [List.map_cons, List.nodup_cons] at hnd
    by_cases hp : p.1 = id
    · simp only [eraseTasks, hp, if_pos, List.filter_cons]
      rw [if_neg (by simp [hp])]
      refine ((List.filter_eq_self).mpr ?_).symm
      intro q hq
      have hqid : ¬ q.1 = id := by
        intro hqe
        exact hnd.1 (hp ▸ hqe ▸ List.mem_map_of_mem Prod.fst hq)
      simpa using hqid
    · simp only [eraseTasks, hp, if_neg, not_false_iff, List.filter_cons]
      rw [if_pos (by simpa using hp)]
      rw [ih hnd.2]

theorem lookupTask_filter_ne (l : TaskMap) (id k : String) (hk : ¬ k = id) :
    lookupTask (l.filter (fun p => ¬ p.1 = id)) k = lookupTask l k := by
  induction l with
  | nil => rfl
  | cons p rest ih =>
    rw [List.filter_cons]
    by_cases hp : p.1 = id
    · rw [if_neg (by simp [hp]), ih]
      have hpk : ¬ p.1 = k := fun h => hk (h.symm.trans hp)
      simp only [lookupTask]
      rw [if_neg hpk]
    · rw [if_pos (by simp [hp])]
      simp only [lookupTask]
      rw [ih]

theorem lookupTask_of_mem_nodup {l : TaskMap} {p : String × ProgressTask}
    (hnd : (l.map Prod.fst).Nodup) (hm : p ∈ l) :
    lookupTask l p.1 = some p.2 := by
  induction l with
  | nil => simp at hm
  | cons q rest ih =>
    simp only [List.map_cons, List.nodup_cons] at hnd
    rcases List.mem_cons.mp hm with h | h
    · subst h
      simp [lookupTask]
    · have hne : ¬ q.1 = p.1 := by
        intro he
        exact hnd.1 (he ▸ List.mem_map_of_mem Prod.fst h)
      simp only [lookupTask, hne, if_neg, not_false_iff]
      exact ih hnd.2 h

theorem entry_eq_of_nodup {l : TaskMap} (hnd : (l.map Prod.fst).Nodup)
    {p q : String × ProgressTask} (hp : p ∈ l) (hq : q ∈ l)
    (hk : p.1 = q.1) : p = q := by
  have h1 := lookupTask_of_mem_nodup hnd hp
  have h2 := lookupTask_of_mem_nodup hnd hq
  rw [hk] at h1
  rw [h1] at h2
  have h3 : p.2 = q.2 := Option.some_inj.mp h2
  calc p = (p.1, p.2) := (Prod.mk.eta).symm
    _ = (q.1, q.2) := by rw [hk, h3]
    _ = q := Prod.mk.eta

theorem clearCompletedAux_spec (ids : List String) :
    ∀ s : ManagerState, ids.Nodup →
      (s.tasks.map Prod.fst).Nodup →
      (∀ id ∈ ids, ∃ t, get_task s id = some t) →
      (clearCompletedAux s ids).1 = ids.length ∧
      (clearCompletedAux s ids).2.tasks =
        s.tasks.filter (fun p => ¬ p.1 ∈ ids) := by
  induction ids with
  | nil =>
    intro s _ _ _
    refine ⟨rfl, ?_⟩
    simp [clearCompletedAux]
  | cons id rest ih =>
    intro s hnd hndk hpres
    have hid : id ∉ rest := (List.nodup_cons.mp hnd).1
    have hnd2 := (List.nodup_cons.mp hnd).2
    obtain ⟨t0, ht0⟩ := hpres id (List.mem_cons_self _ _)
    unfold clearCompletedAux
    rw [remove_task_found s id t0 ht0]
    dsimp only
    have herase : eraseTasks s.tasks id =
        s.tasks.filter (fun p => ¬ p.1 = id) :=
      eraseTasks_eq_filter s.tasks id hndk
    have hndk2 : ((eraseTasks s.tasks id).map Prod.fst).Nodup := by
      rw [herase]
      exact hndk.sublist (List.Sublist.map Prod.fst (List.filter_sublist _))
    have hpres2 : ∀ id2 ∈ rest,
        ∃ t, get_task { s with tasks := eraseTasks s.tasks id } id2 = some t := by
      intro id2 hmem
      obtain ⟨t2, ht2⟩ := hpres id2 (List.mem_cons_of_mem _ hmem)
      refine ⟨t2, ?_⟩
      show lookupTask (eraseTasks s.tasks id) id2 = some t2
      rw [herase,
        lookupTask_filter_ne s.tasks id id2 (fun he => hid (he ▸ hmem))]
      exact ht2
    obtain ⟨hcount, htasks⟩ :=
      ih { s with tasks := eraseTasks s.tasks id } hnd2 hndk2 hpres2
    refine ⟨by simp [hcount], ?_⟩
    rw [htasks]
    show (eraseTasks s.tasks id).filter _ = _
    rw [herase, List.filter_filter]
    refine List.filter_congr ?_
    intro p hp
    simp [List.mem_cons, not_or, Bool.and_comm]

/-- Fixture for C9: two completed tasks ("a", "c") among three active
ones ("b" running, "d" created, "e" paused). -/
def statusTask (id : String) (st : TaskStatus) : ProgressTask :=
  { task_id := id, name := id, status := st }

def clearFix : ManagerState :=
  { tasks := [("a", statusTask "a" .completed), ("b", statusTask "b" .running),
              ("c", statusTask "c" .completed), ("d", statusTask "d" .created),
              ("e", statusTask "e" .paused)],
    task_counter := 5 }

/-- C9: `clear_completed` removes exactly the Completed tasks, returns
their number, and leaves every non-completed task registered under the
same id with its state unchanged; on a registry with 2 completed and 3
active tasks it returns 2 and keeps the 3 active entries verbatim. -/
theorem C9_clear_completed (s : ManagerState)
    (hnd : (s.tasks.map Prod.fst).Nodup) :
    (clear_completed s).1 =
      (s.tasks.filter (fun p => p.2.status = .completed)).length ∧
    (clear_completed s).2.tasks =
      s.tasks.filter (fun p => ¬ p.2.status = .completed) ∧
    (∀ k task, get_task s k = some task → task.status ≠ .completed →
      get_task (clear_completed s).2 k = some task) ∧
    ((clear_completed clearFix).1 = 2 ∧
     (clear_completed clearFix).2.tasks =
       [("b", statusTask "b" .running), ("d", statusTask "d" .created),
        ("e", statusTask "e" .paused)]) := by
  have hids : (get_completed_tasks s).map Prod.fst =
      (s.tasks.filter (fun p => p.2.status = .completed)).map Prod.fst := by
    unfold get_completed_tasks
    congr 1
  have hndids : ((get_completed_tasks s).map Prod.fst).Nodup := by
    rw [hids]
    exact hnd.sublist (List.Sublist.map Prod.fst (List.filter_sublist _))
  have hpres : ∀ id ∈ (get_completed_tasks s).map Prod.fst,
      ∃ t, get_task s id = some t := by
    intro id hmem
    obtain ⟨p, hpmem, hpeq⟩ := List.mem_map.mp hmem
    have hpmem2 : p ∈ s.tasks.filter (fun q => q.2.is_completed) := hpmem
    have hp2 : p ∈ s.tasks := List.mem_of_mem_filter hpmem2
    refine ⟨p.2, ?_⟩
    rw [← hpeq]
    exact lookupTask_of_mem_nodup hnd hp2
  obtain ⟨hcount, htasks⟩ :=
    clearCompletedAux_spec ((get_completed_tasks s).map Prod.fst) s
      hndids hnd hpres
  have hmemiff : ∀ p ∈ s.tasks,
      (p.1 ∈ (get_completed_tasks s).map Prod.fst ↔
        p.2.status = .completed) := by
    intro p hp
    constructor
    · intro hmem
      obtain ⟨q, hqmem, hqeq⟩ := List.mem_map.mp hmem
      have hqmem2 : q ∈ s.tasks.filter (fun r => r.2.is_completed) := hqmem
      have hq2 : q ∈ s.tasks := List.mem_of_mem_filter hqmem2
      have hqc : q.2.is_completed = true := (List.mem_filter.mp hqmem2).2
      have hpq := entry_eq_of_nodup hnd hp hq2 hqeq.symm
      rw [hpq]
      simpa using hqc
    · intro hc
      refine List.mem_map.mpr ⟨p, ?_, rfl⟩
      unfold get_completed_tasks
      refine List.mem_filter.mpr ⟨hp, by simpa using hc⟩
  refine ⟨?_, ?_, ?_, by constructor <;> rfl⟩
  · unfold clear_completed
    rw [hcount, hids, List.length_map]
  · unfold clear_completed
    rw [htasks]
    refine List.filter_congr ?_
    intro p hp
    simp [hmemiff p hp]
  · intro k task h hnc
    show lookupTask (clear_completed s).2.tasks k = some task
    have hkt : (k, task) ∈ s.tasks := mem_of_lookupTask h
    have hkeep : (k, task) ∈ (clear_completed s).2.tasks := by
      unfold clear_completed
      rw [htasks]
      refine List.mem_filter.mpr ⟨hkt, ?_⟩
      simp only [decide_eq_true_eq]
      intro hmem
      exact hnc ((hmemiff (k, task) hkt).mp hmem)
    have hndc : ((clear_completed s).2.tasks.map Prod.fst).Nodup := by
      unfold clear_completed
      rw [htasks]
      exact hnd.sublist (List.Sublist.map Prod.fst (List.filter_sublist _))
    exact lookupTask_of_mem_nodup hndc hkeep

theorem C9_clear_completed_witness :
    (clear_completed clearFix).1 = 2 ∧
    (clear_completed clearFix).2.tasks =
      [("b", statusTask "b" .running), ("d", statusTask "d" .created),
       ("e", statusTask "e" .paused)] :=
  (C9_clear_completed clearFix (by decide)).2.2.2

end ProgressDemo
